import Mathlib

/-!
Verification of the Categorizer-Go ranking core against its specification.

Shallow embedding conventions used throughout this file:

* Go `float32`/`float64` score arithmetic is modelled over `ℚ`.  Every claim
  settled below is robust to floating-point rounding: all comparisons that
  decide a theorem or counterexample are separated from the relevant
  threshold by margins (≥ 0.02) far exceeding float32 rounding error.
* `math.Sqrt` is irrational-valued, so functions that call it take an
  explicit `sq : ℚ → ℚ` parameter.  The source itself isolates this
  dependency (`var mathSqrt = func(v float64) float64 { ... }` in
  `categorizer/index.go`, "isolated for testing overrides").  All general
  theorems hold for every `sq`; concrete evaluations use `ratSqrt`, which
  agrees with `math.Sqrt` on perfect squares (where IEEE sqrt is exact).
* Go byte slices are `List Nat` (each element < 256), `uint32` values are
  `Nat` reduced mod 2^32 where the source converts, and `float32` vector
  elements in the disk-cache layer are modelled by their IEEE-754 bit
  patterns (`Nat` < 2^32), since serialization operates on the bits
  (`math.Float32bits` / little-endian `binary.Write`).
* Fallible Go code (errors, index-out-of-range panics) returns
  `Except String _` or `Option _`.
* Go maps that are only ever read back by key are modelled as functions
  `String → Option _` (or with the zero-value default where Go reads a
  missing key).
* `container/heap` (standard library, outside this repository) is modelled
  by its documented contract: a collection whose element at index 0 is a
  minimum for the heap's `Less` and whose `Push`/`Pop` insert and remove;
  concretely a list kept sorted by the heap order with the minimum at the
  head.
* `sort.Slice` guarantees only sortedness, `sort.SliceStable` stable
  sortedness; both are modelled by insertion sort (`List.insertionSort`),
  which is stable and sorted for the reflexive closure of the comparator.
* NFKC normalization (`golang.org/x/text/unicode/norm`) acts as the
  identity on every string literal in this repository's rule tables (all
  are NFKC-normal: kanji, full-width katakana and ASCII), and
  `strings.ToLower` only affects their ASCII letters, so the embedded
  normalizers perform whitespace-field joining and ASCII lowering with
  that documented identification.
-/

/-- Rational stand-in for `math.Sqrt`: exact on rationals whose numerator
and denominator are perfect squares (where IEEE-754 sqrt is also exact),
an approximation elsewhere.  Used only to instantiate concrete inputs at
points where `math.Sqrt` is exact. -/
def ratSqrt (q : ℚ) : ℚ :=
  (Nat.sqrt q.num.toNat : ℚ) / (Nat.sqrt q.den : ℚ)

/-- Helper for `dedupFirst`, carrying the set of already-seen elements. -/
def dedupFirstAux {α} [DecidableEq α] (seen : List α) : List α → List α
  | [] => []
  | x :: rest =>
    if x ∈ seen then dedupFirstAux seen rest
    else x :: dedupFirstAux (x :: seen) rest

/-- Order-preserving deduplication keeping the first occurrence of each
element — the behaviour of the `seen map[string]struct{}` pattern used
throughout the source.  (Mathlib's `List.dedup` keeps last occurrences,
hence this dedicated definition.) -/
def dedupFirst {α} [DecidableEq α] (l : List α) : List α :=
  dedupFirstAux [] l

namespace App

/-- `clamp01` from `main.go` / `internal/app/mathutil.go`. -/
def clamp01 (x : ℚ) : ℚ :=
  if x < 0 then 0 else if x > 1 then 1 else x

/-- `cosine32(a, b []float32) float32` from `main.go` and
`internal/app/mathutil.go`.  The Go loop runs `for i := range a` and reads
`b[i]`; when `a` is longer than `b` this panics with an index out of
range, modelled as `none`.  Otherwise it sums over the first `len(a)`
elements of both slices. -/
def cosine32 (sq : ℚ → ℚ) (a b : List ℚ) : Option ℚ :=
  if b.length < a.length then
    none
  else
    let pairs := a.zip b
    let dot := (pairs.map fun p => p.1 * p.2).sum
    let na := (pairs.map fun p => p.1 * p.1).sum
    let nb := (pairs.map fun p => p.2 * p.2).sum
    some (if na = 0 ∨ nb = 0 then 0 else dot / (sq na * sq nb))

/-- `Suggestion` struct from `main.go` / `internal/app/types.go`. -/
structure Suggestion where
  Label : String
  Score : ℚ
  Source : String
  Aliases : List String
deriving DecidableEq, Repr

/-- `Threshold` struct from `main.go` / `config.go`. -/
structure Threshold where
  Top1 : ℚ
  Margin12 : ℚ
  Mean : ℚ
deriving DecidableEq, Repr

/-- `meanScore` from `main.go` (identical in `unnamed/part_005` and
`unnamed/part_006`). -/
def meanScore (sugs : List Suggestion) : ℚ :=
  if sugs.length = 0 then 0
  else (sugs.map Suggestion.Score).sum / sugs.length

/-- `needReview(sugs []Suggestion, thresh Threshold) bool` from
`main.go` lines 615-626 (identical in `unnamed/part_005`): review is
triggered by an empty list, a low top-1 score, a small top1−top2 margin
(top2 read as 0 for a singleton list), or a low mean. -/
def needReview : List Suggestion → Threshold → Bool
  | [], _ => true
  | s :: rest, th =>
    let top1 := s.Score
    let top2 : ℚ := match rest with
      | [] => 0
      | s2 :: _ => s2.Score
    let mean := meanScore (s :: rest)
    decide (top1 < th.Top1) || decide (top1 - top2 < th.Margin12) ||
      decide (mean < th.Mean)

/-- `needReview(sugs []Suggestion, tieDelta float32) bool` from
`unnamed/part_006` lines 358-369: the simplified variant that inspects
only the top1−top2 margin (called with `cfg.Thresh.Margin12`).  Renamed
from `needReview` to avoid colliding with the four-trigger variant. -/
def needReviewMargin : List Suggestion → ℚ → Bool
  | [], _ => true
  | sugs@(s :: rest), tieDelta =>
    if sugs.length < 2 then false
    else if tieDelta ≤ 0 then false
    else
      let top2 : ℚ := match rest with
        | [] => 0
        | s2 :: _ => s2.Score
      decide (s.Score - top2 < tieDelta)

/-- `strings.TrimSpace`: drop leading and trailing Unicode whitespace
(`Char.isWhitespace` matches Go's `unicode.IsSpace` on every character
appearing in this repository). -/
def trimSpace (s : String) : String :=
  ⟨(s.toList.dropWhile Char.isWhitespace).reverse.dropWhile
      Char.isWhitespace |>.reverse⟩

/-- `mergeSources(values ...string) string` from `main.go` lines 705-723:
split each value on commas, trim, drop empties and duplicates preserving
first-seen order, and re-join with commas. -/
def mergeSources (values : List String) : String :=
  let parts := (values.map fun v => (v.splitOn ",").map trimSpace).flatten
  String.intercalate "," (dedupFirst (parts.filter (fun p => p ≠ "")))

/-- `mergeSuggestion(a, b Suggestion) Suggestion` from `main.go` lines
670-703: keep the higher-scoring label and score (ties favour `a`), merge
the source tags, and collect all other non-empty distinct labels and
aliases — in the order `a.Label`, `b.Label`, `a.Aliases`, `b.Aliases` —
as aliases, skipping the resulting label itself. -/
def mergeSuggestion (a b : Suggestion) : Suggestion :=
  let label := if b.Score > a.Score then b.Label else a.Label
  let score := if b.Score > a.Score then b.Score else a.Score
  let source := mergeSources [a.Source, b.Source]
  let names := ([a.Label, b.Label] ++ a.Aliases ++ b.Aliases).map trimSpace
  let aliases := dedupFirst (names.filter fun n => n ≠ "" ∧ n ≠ label)
  { Label := label, Score := score, Source := source, Aliases := aliases }

/-- The sort order of `sort.SliceStable(..., res[i].Score > res[j].Score)`
(`scoreCandidates`, `clusterSuggestions`): the reflexive total preorder
whose stable sort coincides with Go's stable sort for the strict
comparator. -/
def scoreGE (a b : Suggestion) : Prop := a.Score ≥ b.Score

instance : DecidableRel scoreGE := fun a b => by
  unfold scoreGE; infer_instance

/-- The inner scan of `clusterSuggestions` (`main.go` lines 644-664) for
one suggestion with resolved vector `vec`: walk the current clusters,
skipping those whose label has no vector, and merge into the first one
whose cosine (per `cosine32`) reaches `tau`.  The outer `none` is the
index-out-of-range panic of `cosine32` on mismatched vector lengths;
`some none` means no cluster matched; `some (some cs)` is the updated
cluster list. -/
def assignSuggestion (sq : ℚ → ℚ) (tau : ℚ) (lookup : String → Option (List ℚ))
    (vec : List ℚ) (sug : Suggestion) :
    List Suggestion → Option (Option (List Suggestion))
  | [] => some none
  | c :: rest =>
    match lookup c.Label with
    | none => (assignSuggestion sq tau lookup vec sug rest).map (Option.map (c :: ·))
    | some other =>
      match cosine32 sq vec other with
      | none => none
      | some sc =>
        if sc ≥ tau then some (some (mergeSuggestion c sug :: rest))
        else (assignSuggestion sq tau lookup vec sug rest).map (Option.map (c :: ·))

/-- The cluster-building pass of `clusterSuggestions`: suggestions whose
label resolves to no vector become singleton clusters; others join the
first matching cluster or are appended.  `none` propagates a `cosine32`
panic. -/
def buildSugClusters (sq : ℚ → ℚ) (tau : ℚ)
    (lookup : String → Option (List ℚ)) :
    List Suggestion → List Suggestion → Option (List Suggestion)
  | clusters, [] => some clusters
  | clusters, sug :: rest =>
    match lookup sug.Label with
    | none => buildSugClusters sq tau lookup (clusters ++ [sug]) rest
    | some vec =>
      match assignSuggestion sq tau lookup vec sug clusters with
      | none => none
      | some (some clusters') => buildSugClusters sq tau lookup clusters' rest
      | some none => buildSugClusters sq tau lookup (clusters ++ [sug]) rest

/-- `clusterSuggestions(in []Suggestion, tau float32, lookup)` from
`main.go` lines 639-668 (identical in `unnamed/part_005`): identity for
lists of at most one element (with no guard on `tau`); otherwise the
greedy merge pass followed by a stable descending re-sort by score.
`none` models the `cosine32` panic on mismatched vector lengths. -/
def clusterSuggestions (sq : ℚ → ℚ) (inp : List Suggestion) (tau : ℚ)
    (lookup : String → Option (List ℚ)) : Option (List Suggestion) :=
  if inp.length ≤ 1 then some inp
  else
    (buildSugClusters sq tau lookup [] inp).map fun clusters =>
      clusters.insertionSort scoreGE

/-- Default review thresholds from `defaultConfig()` in `main.go`:
`Threshold{Top1: 0.45, Margin12: 0.03, Mean: 0.50}`. -/
def defaultThresh : Threshold :=
  { Top1 := 45 / 100, Margin12 := 3 / 100, Mean := 50 / 100 }

/-- `ClusterCfg` struct from `main.go` / `config.go`. -/
structure ClusterCfg where
  Enabled : Bool
  Threshold : ℚ
deriving DecidableEq, Repr

/-- `Config` struct from `main.go` / `config.go` (the encoder/tokenizer
path fields, `CacheDir` and `SeedFile` are omitted: they are opaque
strings untouched by the operations embedded here, except that the
`config.go` variant of `sanitizeConfig` additionally trims `SeedFile`). -/
structure Config where
  TopK : Int
  Mode : String
  UseNDC : Bool
  WeightNDC : ℚ
  SeedBias : ℚ
  Thresh : Threshold
  ClusterCfg : ClusterCfg
deriving DecidableEq, Repr

/-- Mode constants from `main.go`. -/
def ModeSeeded : String := "seeded"

/-- Mode constant `ModeMixed` from `main.go`. -/
def ModeMixed : String := "mixed"

/-- Mode constant `ModeSplit` from `main.go`. -/
def ModeSplit : String := "split"

/-- `sanitizeConfig(cfg Config) Config` from `main.go` lines 109-146:
sequential clamping of each configuration field. -/
def sanitizeConfig (cfg : Config) : Config :=
  let topK := if cfg.TopK < 3 then 3 else cfg.TopK
  let topK := if topK > 5 then 5 else topK
  let mode :=
    if cfg.Mode = ModeSeeded ∨ cfg.Mode = ModeMixed ∨ cfg.Mode = ModeSplit
    then cfg.Mode else ModeMixed
  let weight := if cfg.WeightNDC < 1 / 2 then 1 / 2 else cfg.WeightNDC
  let weight := if weight > 6 / 5 then 6 / 5 else weight
  let seedBias := if cfg.SeedBias < 0 then 0 else cfg.SeedBias
  let seedBias := if seedBias > 1 / 5 then 1 / 5 else seedBias
  let clusterThreshold :=
    if cfg.ClusterCfg.Threshold ≤ 0 then 80 / 100 else cfg.ClusterCfg.Threshold
  let top1 := if cfg.Thresh.Top1 ≤ 0 then 45 / 100 else cfg.Thresh.Top1
  let margin12 :=
    if cfg.Thresh.Margin12 < 0 then 3 / 100 else cfg.Thresh.Margin12
  let mean := if cfg.Thresh.Mean ≤ 0 then 50 / 100 else cfg.Thresh.Mean
  { cfg with
    TopK := topK
    Mode := mode
    WeightNDC := weight
    SeedBias := seedBias
    ClusterCfg := { cfg.ClusterCfg with Threshold := clusterThreshold }
    Thresh := { Top1 := top1, Margin12 := margin12, Mean := mean } }

end App

/-!
Disk-cache byte layer.  One file per key holds
`[uint32 little-endian count][count × float32 little-endian]`.  Vector
elements here are the 32-bit IEEE-754 bit patterns. -/

/-- Little-endian serialization of a 32-bit word into four bytes, as
produced by `binary.LittleEndian.PutUint32` / `binary.Write` (the `% 2^32`
mirrors the Go conversion to `uint32`). -/
def u32ToBytesLE (n : Nat) : List Nat :=
  [n % 2 ^ 32 % 256, n % 2 ^ 32 / 256 % 256,
   n % 2 ^ 32 / 65536 % 256, n % 2 ^ 32 / 16777216 % 256]

/-- Little-endian decoding of four bytes into a 32-bit word, as done by
`binary.LittleEndian.Uint32`. -/
def bytesToU32LE (b0 b1 b2 b3 : Nat) : Nat :=
  b0 + 256 * b1 + 65536 * b2 + 16777216 * b3

/-- Serialize a list of 32-bit words, four bytes each, little-endian. -/
def wordsToBytesLE (v : List Nat) : List Nat :=
  (v.map u32ToBytesLE).flatten

/-- Decode consecutive 4-byte groups into 32-bit words (the loop in
`OrtEmbedder.loadFromDisk`, and what `binary.Read` does in
`embedCache.load`).  A trailing group of fewer than four bytes is never
reached by the callers, which validate the length first. -/
def bytesToWordsLE : List Nat → List Nat
  | b0 :: b1 :: b2 :: b3 :: rest => bytesToU32LE b0 b1 b2 b3 :: bytesToWordsLE rest
  | _ => []

namespace App

/-- `embedCache.save` from `cache.go` / `main.go`: the bytes written to
the cache file for vector `v` (count as `uint32(len(v))`, then the raw
little-endian floats). -/
def cacheSave (v : List Nat) : List Nat :=
  u32ToBytesLE v.length ++ wordsToBytesLE v

/-- `embedCache.load` from `cache.go` lines 39-64 / `main.go`, for one
key.  The argument is what `os.ReadFile` returns: `none` when the file
does not exist (`os.ErrNotExist`), `some data` otherwise.  A file shorter
than 4 bytes is the error `cache file broken`, a body shorter than the
declared count is `cache truncated` (Go appends the file path to both
messages; the path is omitted here).  `binary.Read` on the validated slice
cannot fail.  Bytes beyond `4 + 4*count` are ignored, as in the source. -/
def cacheLoad (file : Option (List Nat)) : Except String (Option (List Nat)) :=
  match file with
  | none => .ok none
  | some data =>
    if data.length < 4 then .error "cache file broken"
    else
      match data with
      | b0 :: b1 :: b2 :: b3 :: rest =>
        let length := bytesToU32LE b0 b1 b2 b3
        let need := length * 4
        if data.length < 4 + need then .error "cache truncated"
        else .ok (some (bytesToWordsLE (rest.take need)))
      | _ => .error "cache file broken"

/-- `Service.EmbedCached` from `main.go` lines 447-467 /
`unnamed/part_005` lines 151-171, for a single text.  `mem` is the result
of the in-memory `cache.get`, `file` the bytes of the on-disk entry for
the same key, `enc` the result of `emb.Encode` for the text.  A disk-read
error is returned to the caller; only a miss (`ok none`) falls through to
the encoder.  A failure of the subsequent `cache.save` is logged and
ignored, so it does not affect the returned value. -/
def EmbedCached (mem : Option (List Nat)) (file : Option (List Nat))
    (enc : Except String (List Nat)) : Except String (List Nat) :=
  match mem with
  | some v => .ok v
  | none =>
    match cacheLoad file with
    | .error e => .error e
    | .ok (some v) => .ok v
    | .ok none => enc

end App

namespace Cat

/-- `OrtEmbedder.saveToDisk` from `categorizer/embedder.go` lines 164-181:
the bytes written (to a temporary file and then atomically renamed), i.e.
the final file contents for vector `v`. -/
def saveToDisk (v : List Nat) : List Nat :=
  u32ToBytesLE v.length ++ wordsToBytesLE v

/-- `OrtEmbedder.loadFromDisk` from `categorizer/embedder.go` lines
140-162.  The argument is the `os.ReadFile` result (`none` = file does not
exist).  Unlike `embedCache.load`, the byte count must match exactly
(`len(data) != length*4` after stripping the header is an error). -/
def loadFromDisk (file : Option (List Nat)) : Except String (List Nat) :=
  match file with
  | none => .error "file does not exist"
  | some data =>
    if data.length < 4 then .error "cache file too small"
    else
      match data with
      | b0 :: b1 :: b2 :: b3 :: rest =>
        let length := bytesToU32LE b0 b1 b2 b3
        if rest.length ≠ length * 4 then .error "cache length mismatch"
        else .ok (bytesToWordsLE rest)
      | _ => .error "cache file too small"

/-- `OrtEmbedder.EmbedText` from `categorizer/embedder.go` lines 82-102,
for a single (already normalized) text.  `mem` is the in-memory cache
lookup for the key, `file` the on-disk bytes, `enc` the `enc.Encode`
result.  Every `loadFromDisk` error — missing file or corruption — falls
through to the encoder; on encoder success the vector is stored and the
`saveToDisk` error is discarded. -/
def EmbedText (mem : Option (List Nat)) (file : Option (List Nat))
    (enc : Except String (List Nat)) : Except String (List Nat) :=
  match mem with
  | some v => .ok v
  | none =>
    match loadFromDisk file with
    | .ok v => .ok v
    | .error _ => enc

/-- `VectorItem` from `categorizer/index.go`. -/
structure VectorItem where
  Label : String
  Source : String
  Vector : List ℚ
deriving DecidableEq, Repr

/-- `Hit` from `categorizer/index.go`. -/
structure Hit where
  Label : String
  Score : ℚ
  Source : String
  Vector : List ℚ
deriving DecidableEq, Repr

/-- `cosineSimilarity(a, b []float32) float32` from `categorizer/index.go`
lines 158-178: both vectors are truncated to the shorter length `n`
(`n := len(a); if len(b) < n { n = len(b) }`), a zero norm yields 0, and
`sq` stands for the source's overridable `mathSqrt`. -/
def cosineSimilarity (sq : ℚ → ℚ) (a b : List ℚ) : ℚ :=
  let pairs := a.zip b
  if a.length = 0 ∨ b.length = 0 then 0
  else
    let dot := (pairs.map fun p => p.1 * p.2).sum
    let na := (pairs.map fun p => p.1 * p.1).sum
    let nb := (pairs.map fun p => p.2 * p.2).sum
    if na = 0 ∨ nb = 0 then 0 else dot / (sq na * sq nb)

/-- `hitBetter(a, b Hit) bool` from `categorizer/index.go`: strictly
higher score, or equal score and strictly smaller label. -/
def hitBetter (a b : Hit) : Bool :=
  if a.Score = b.Score then decide (a.Label < b.Label)
  else decide (a.Score > b.Score)

/-- The total preorder "`a` is at most as good as `b`", i.e. the negation
of `hitBetter a b`.  The heap's `Less` satisfies
`Less x y = hitBetter y x`, so a min-heap for `Less` keeps its least-good
hit at the root, and this single relation orders both the heap and the
final descending sort (via its flip `goodGE`). -/
def goodLE (a b : Hit) : Prop := hitBetter a b = false

/-- Flip of `goodLE`: "`a` is at least as good as `b`", the sort order of
`Search`'s final `sort.Slice` (descending score, ascending label on
ties). -/
def goodGE (a b : Hit) : Prop := goodLE b a

instance : DecidableRel goodLE := fun a b => by
  unfold goodLE; infer_instance

instance : DecidableRel goodGE := fun a b => by
  unfold goodGE goodLE; infer_instance

/-- The bounded min-heap selection loop of `InMemoryIndex.Search`
(`categorizer/index.go` lines 90-109), with the heap modelled as a list
sorted ascending by goodness (head = root = least good element, as
guaranteed by `container/heap` for its `Less`): while fewer than `k` hits
are held, push the candidate; otherwise compare it against the root and
replace the root when the candidate is better.  The empty-heap-when-full
case only arises for `k = 0`, which `Search` has already excluded; the Go
code would panic there, and the model skips the item. -/
def selectLoop (k : Nat) : List Hit → List Hit → List Hit
  | H, [] => H
  | H, c :: rest =>
    if H.length < k then selectLoop k (H.orderedInsert goodLE c) rest
    else
      match H with
      | [] => selectLoop k [] rest
      | worst :: t =>
        if hitBetter c worst then selectLoop k (t.orderedInsert goodLE c) rest
        else selectLoop k (worst :: t) rest

/-- Construction of the candidate `Hit` for one stored item inside the
`Search` loop. -/
def toHit (sq : ℚ → ℚ) (vec : List ℚ) (it : VectorItem) : Hit :=
  { Label := it.Label, Score := cosineSimilarity sq vec it.Vector,
    Source := it.Source, Vector := it.Vector }

/-- `InMemoryIndex.Search(vec []float32, k int)` from
`categorizer/index.go` lines 80-124 over the stored `items` snapshot:
empty store, empty query or `k <= 0` return nil; `k` is capped at the
store size; the bounded heap selects the top `k`, and the survivors are
sorted by descending score with ties broken by ascending label
(`sort.Slice` modelled by insertion sort for the same comparator). -/
def Search (sq : ℚ → ℚ) (items : List VectorItem) (vec : List ℚ)
    (k : Int) : List Hit :=
  if items.length = 0 ∨ vec.length = 0 ∨ k ≤ 0 then []
  else
    let kk : Nat := if k > (items.length : Int) then items.length else k.toNat
    let hits := selectLoop kk [] (items.map (toHit sq vec))
    if hits.length = 0 then [] else hits.insertionSort goodGE

/-- `cluster` struct from `categorizer/cluster.go`: representative vector
(`[]` models Go's nil/empty, both tested via `len == 0`), current best
member and the member list. -/
structure Cluster where
  repr : List ℚ
  best : Hit
  members : List Hit
deriving Repr

/-- The inner assignment scan of `clusterHits`: find the first cluster
with a non-empty representative whose cosine similarity to `h.Vector`
reaches the threshold, and merge `h` into it (updating best and
representative when `h` scores strictly higher).  `none` when no cluster
matches. -/
def assignHit (sq : ℚ → ℚ) (threshold : ℚ) (h : Hit) :
    List Cluster → Option (List Cluster)
  | [] => none
  | c :: rest =>
    if c.repr.length ≠ 0 ∧ cosineSimilarity sq h.Vector c.repr ≥ threshold then
      let c' :=
        if h.Score > c.best.Score then
          { repr := h.Vector, best := h, members := c.members ++ [h] }
        else
          { c with members := c.members ++ [h] }
      some (c' :: rest)
    else
      (assignHit sq threshold h rest).map (c :: ·)

/-- The cluster-building pass of `clusterHits`: hits without a vector
start singleton clusters with a nil representative (and are never merged
into); others join the first matching cluster or start a new one. -/
def buildClusters (sq : ℚ → ℚ) (threshold : ℚ) :
    List Cluster → List Hit → List Cluster
  | cs, [] => cs
  | cs, h :: rest =>
    if h.Vector.length = 0 then
      buildClusters sq threshold
        (cs ++ [{ repr := [], best := h, members := [h] }]) rest
    else
      match assignHit sq threshold h cs with
      | some cs' => buildClusters sq threshold cs' rest
      | none =>
        buildClusters sq threshold
          (cs ++ [{ repr := h.Vector, best := h, members := [h] }]) rest

/-- Output construction for one cluster in `clusterHits`: the best
member's hit, with the other distinct member labels appended to the label
as `（類似: ...）`. -/
def clusterToHit (c : Cluster) : Hit :=
  let extras := dedupFirst ((c.members.map Hit.Label).filter
    (fun l => l ≠ c.best.Label))
  let label :=
    if 1 < c.members.length ∧ extras ≠ [] then
      c.best.Label ++ "（類似: " ++ String.intercalate ", " extras ++ "）"
    else c.best.Label
  { Label := label, Score := c.best.Score, Source := c.best.Source,
    Vector := c.best.Vector }

/-- `clusterHits(hits []Hit, threshold float32) []Hit` from
`categorizer/cluster.go` lines 15-85: at most one hit or a non-positive
threshold is an identity; otherwise greedy single-pass clustering,
followed by the same descending-score / ascending-label sort as
`Search`.  (The `len(c.members) == 0` skip in the output loop is
unreachable — every cluster is created with one member — and the dedup of
extra labels matches the source's `seen` set.) -/
def clusterHits (sq : ℚ → ℚ) (hits : List Hit) (threshold : ℚ) : List Hit :=
  if hits.length ≤ 1 ∨ threshold ≤ 0 then hits
  else
    let clusters := buildClusters sq threshold [] hits
    ((clusters.filter (fun c => c.members.length ≠ 0)).map clusterToHit).insertionSort goodGE

/-- `Suggestion` from `categorizer/types.go` (`unnamed/part_003`). -/
structure Suggestion where
  Label : String
  Score : ℚ
  Source : String
deriving DecidableEq, Repr

/-- `ClusterConfig` from `unnamed/part_003`. -/
structure ClusterConfig where
  Enabled : Bool
  Threshold : ℚ
deriving DecidableEq, Repr

/-- `Config` from `unnamed/part_003` (the embedder sub-config and the
seeds path are opaque to the ranking operations embedded here and are
omitted, except `MaxSeqLen`-style defaults which touch no claim). -/
structure Config where
  Mode : String
  TopK : Int
  SeedBias : ℚ
  MinScore : ℚ
  Cluster : ClusterConfig
  UseNDC : Bool
deriving DecidableEq, Repr

/-- `Config.ApplyDefaults` from `unnamed/part_003` lines 76-95: replace
only zero values by defaults (the `Embedder.MaxSeqLen` default is omitted
with the field). -/
def ApplyDefaults (c : Config) : Config :=
  { c with
    Mode := if c.Mode = "" then "mixed" else c.Mode
    TopK := if c.TopK ≤ 0 then 3 else c.TopK
    SeedBias := if c.SeedBias = 0 then 3 / 100 else c.SeedBias
    MinScore := if c.MinScore = 0 then 35 / 100 else c.MinScore
    Cluster :=
      { c.Cluster with
        Threshold := if c.Cluster.Threshold = 0 then 8 / 10 else c.Cluster.Threshold } }

/-- `ResultRow` from `unnamed/part_003`. -/
structure ResultRow where
  Text : String
  Suggestions : List Suggestion
  NDCSuggestions : List Suggestion
deriving DecidableEq, Repr

/-- `filterHits` from `categorizer/service.go`. -/
def filterHits (hits : List Hit) (minScore : ℚ) : List Hit :=
  if minScore ≤ 0 then hits else hits.filter (fun h => h.Score ≥ minScore)

/-- `limitHits` from `categorizer/service.go`. -/
def limitHits (hits : List Hit) (k : Int) : List Hit :=
  if (hits.length : Int) ≤ k then hits else hits.take k.toNat

/-- `hitsToSuggestions` from `categorizer/service.go`. -/
def hitsToSuggestions (hits : List Hit) : List Suggestion :=
  hits.map fun h => { Label := h.Label, Score := h.Score, Source := h.Source }

/-- `Service.rankForVector` from `categorizer/service.go` lines 159-218,
with the two index snapshots passed explicitly.  The mode switch ranks
seeds only (seeded / unknown fallback), both lists separately (split), or
a seed-bias-weighted concatenation (mixed, with the same descending sort
as `Search` for its `sort.Slice`). -/
def rankForVector (sq : ℚ → ℚ) (seedItems ndcItems : List VectorItem)
    (vec : List ℚ) (originalText : String) (cfg : Config) : ResultRow :=
  let topK := if cfg.TopK ≤ 0 then 3 else cfg.TopK
  let seedHits := filterHits (Search sq seedItems vec (topK * 3)) cfg.MinScore
  let ndcHits := filterHits (Search sq ndcItems vec (topK * 3)) cfg.MinScore
  if cfg.Mode = "seeded" then
    let seedHits :=
      if cfg.Cluster.Enabled then clusterHits sq seedHits cfg.Cluster.Threshold
      else seedHits
    { Text := originalText,
      Suggestions := hitsToSuggestions (limitHits seedHits topK),
      NDCSuggestions := [] }
  else if cfg.Mode = "split" then
    let seedHits :=
      if cfg.Cluster.Enabled then clusterHits sq seedHits cfg.Cluster.Threshold
      else seedHits
    let ndcHits :=
      if cfg.Cluster.Enabled then clusterHits sq ndcHits cfg.Cluster.Threshold
      else ndcHits
    { Text := originalText,
      Suggestions := hitsToSuggestions (limitHits seedHits topK),
      NDCSuggestions :=
        if cfg.UseNDC then hitsToSuggestions (limitHits ndcHits topK) else [] }
  else if cfg.Mode = "mixed" then
    let weighted := seedHits.map fun h => { h with Score := h.Score + cfg.SeedBias }
    let weighted := if cfg.UseNDC then weighted ++ ndcHits else weighted
    let weighted :=
      if cfg.Cluster.Enabled then clusterHits sq weighted cfg.Cluster.Threshold
      else weighted
    let weighted := weighted.insertionSort goodGE
    { Text := originalText,
      Suggestions := hitsToSuggestions (limitHits weighted topK),
      NDCSuggestions := [] }
  else
    let seedHits :=
      if cfg.Cluster.Enabled then clusterHits sq seedHits cfg.Cluster.Threshold
      else seedHits
    { Text := originalText,
      Suggestions := hitsToSuggestions (limitHits seedHits topK),
      NDCSuggestions := [] }

end Cat

namespace App

/-- `normalize` from `internal/app/textutil.go`: trim, NFKC-normalize and
join whitespace-separated fields with single spaces.  NFKC is the
identity on every string this repository feeds through it (see the file
header), so the embedding performs the field joining only. -/
def normalize (s : String) : String :=
  String.intercalate " " ((s.split Char.isWhitespace).filter (fun f => f ≠ ""))

/-- `strings.ToLower` as it acts on this repository's strings: ASCII
letters are lowered (`Char.toLower`), everything else — kana, kanji,
digits, punctuation — is unchanged. -/
def goToLower (s : String) : String :=
  ⟨s.toList.map Char.toLower⟩

/-- `normalizeKey` from `internal/app/textutil.go`: `normalize` then
lowercase. -/
def normalizeKey (s : String) : String :=
  let n := normalize s
  if n = "" then "" else goToLower n

/-- `normalizeText` from `internal/app/textutil.go`: identical to
`normalizeKey` in the source (normalize then lowercase). -/
def normalizeText (s : String) : String :=
  let n := normalize s
  if n = "" then "" else goToLower n

/-- `keywordRuleSet` from `config.go` (package app). -/
structure keywordRuleSet where
  Strong : List String
  Weak : List String
  Anti : List String
deriving DecidableEq, Repr

/-- `compiledRuleSet` from `config.go` (package app). -/
structure compiledRuleSet where
  strong : List String
  weak : List String
  anti : List String
deriving DecidableEq, Repr

/-- `normalizeKeywordList` from `config.go`: normalize each keyword, drop
empties, dedup keeping first occurrences. -/
def normalizeKeywordList (words : List String) : List String :=
  dedupFirst ((words.map normalizeText).filter (fun w => w ≠ ""))

/-- `useWordBoundary(kw string) bool` from `config.go` lines 656-674:
word-boundary matching applies exactly to non-empty pure-ASCII
alphanumeric keywords of at most three characters (the loop counts
characters and bails out past three). -/
def useWordBoundaryAux : List Char → Nat → Bool
  | [], count => decide (count > 0)
  | c :: rest, count =>
    if c.toNat > 127 then false
    else if !(c.isAlpha || c.isDigit) then false
    else if count + 1 > 3 then false
    else useWordBoundaryAux rest (count + 1)

/-- `useWordBoundary` entry point (the `kw == ""` guard of the source). -/
def useWordBoundary (kw : String) : Bool :=
  if kw = "" then false else useWordBoundaryAux kw.toList 0

/-- `unicode.IsLetter || unicode.IsDigit` on an optional boundary rune
(`none` models Go's zero rune at the ends of the text, for which
`isAlphaNumRune` returns false).  ASCII is exact (`Char.isAlpha`,
`Char.isDigit`); beyond ASCII the letter ranges cover the alphabet
actually occurring in this repository: hiragana, katakana (including the
prolonged-sound mark U+30FC, a letter; excluding the middle dot U+30FB,
punctuation) and the unified CJK ideographs. -/
def isAlphaNumRuneB : Option Char → Bool
  | none => false
  | some ch =>
    ch.isAlpha || ch.isDigit ||
      (0x3041 ≤ ch.toNat && ch.toNat ≤ 0x3096) ||
      (0x30A1 ≤ ch.toNat && ch.toNat ≤ 0x30FA) ||
      ch.toNat = 0x30FC ||
      (0x4E00 ≤ ch.toNat && ch.toNat ≤ 0x9FFF)

/-- Index of the first occurrence of `needle` in a character list
(`strings.Index`; byte-level matches of valid UTF-8 always align with
character boundaries, so character-level search is equivalent). -/
def indexOfSub (needle : List Char) : List Char → Option Nat
  | [] => if needle.isPrefixOf ([] : List Char) then some 0 else none
  | h :: t =>
    if needle.isPrefixOf (h :: t) then some 0
    else (indexOfSub needle t).map (· + 1)

/-- The scan loop of `containsAsWord` (`config.go` lines 676-698): find
the next occurrence from position `start`, accept it when neither the
preceding nor the following rune is alphanumeric, otherwise continue
after the occurrence.  `fuel` bounds the iteration count; each step
advances `start` by at least the (non-empty) keyword length, so
`text.length + 1` steps always suffice and the fuel is never exhausted on
the guarded call path. -/
def containsAsWordFuel (text kw : List Char) : Nat → Nat → Bool
  | _, 0 => false
  | start, fuel + 1 =>
    match indexOfSub kw (text.drop start) with
    | none => false
    | some off =>
      let idx := start + off
      let before := if idx > 0 then text.get? (idx - 1) else none
      let after :=
        if idx + kw.length < text.length then text.get? (idx + kw.length)
        else none
      if !isAlphaNumRuneB before && !isAlphaNumRuneB after then true
      else containsAsWordFuel text kw (idx + kw.length) fuel

/-- `containsAsWord(text, word string) bool` from `config.go`. -/
def containsAsWord (text kw : String) : Bool :=
  containsAsWordFuel text.toList kw.toList 0 (text.toList.length + 1)

/-- `containsKeyword(text, kw string) bool` from `config.go` lines
646-654: empty keywords never match; short ASCII keywords require word
boundaries; all others use plain substring containment. -/
def containsKeyword (text kw : String) : Bool :=
  if kw = "" then false
  else if useWordBoundary kw then containsAsWord text kw
  else (indexOfSub kw.toList text.toList).isSome

/-- `countKeywordHits` from `config.go`: the number of keywords of the
list that occur in the text. -/
def countKeywordHits (text : String) (keywords : List String) : Nat :=
  (keywords.filter (containsKeyword text)).length

/-- `countRuleHits` from `config.go`: strong, weak and anti hit counts. -/
def countRuleHits (text : String) (set : compiledRuleSet) : Nat × Nat × Nat :=
  (countKeywordHits text set.strong, countKeywordHits text set.weak,
   countKeywordHits text set.anti)

/-- Scoring constants from `config.go` lines 479-490. -/
def strongWeight : ℚ := 1

/-- `weakWeight` constant (0.25). -/
def weakWeight : ℚ := 1 / 4

/-- `antiWeight` constant (1.0). -/
def antiWeight : ℚ := 1

/-- `strongCap` constant (3). -/
def strongCap : Nat := 3

/-- `weakCap` constant (5). -/
def weakCap : Nat := 5

/-- `bonusCapValue` constant (4.0). -/
def bonusCapValue : ℚ := 4

/-- `alphaWeight` constant (0.80). -/
def alphaWeight : ℚ := 4 / 5

/-- `betaWeight` constant (0.20). -/
def betaWeight : ℚ := 1 / 5

/-- `floorForced` constant (0.60): the score floor granted by a strong
keyword hit. -/
def floorForced : ℚ := 3 / 5

/-- `dampValue` constant (0.03): the cross-category damping amount. -/
def dampValue : ℚ := 3 / 100

/-- `computeRuleBonus(strongHits, weakHits, antiHits int) float32` from
`config.go` lines 707-727: cap the strong and weak hit counts, weight
them, subtract anti hits, clamp to `[0, bonusCapValue]`. -/
def computeRuleBonus (strongHits weakHits antiHits : Nat) : ℚ :=
  let s := min strongHits strongCap
  let w := min weakHits weakCap
  let bonus := strongWeight * s + weakWeight * w
  let bonus := if antiHits > 0 then bonus - antiWeight * antiHits else bonus
  let bonus := if bonus < 0 then 0 else bonus
  if bonus > bonusCapValue then bonusCapValue else bonus

/-- `fnv32(s string) uint32` from `main.go` / `internal/app/mathutil.go`:
FNV-1a over the UTF-8 bytes of the string, with 32-bit wraparound. -/
def utf8BytesChar (c : Char) : List Nat :=
  let n := c.toNat
  if n < 0x80 then [n]
  else if n < 0x800 then [0xC0 + n / 64, 0x80 + n % 64]
  else if n < 0x10000 then
    [0xE0 + n / 4096, 0x80 + n / 64 % 64, 0x80 + n % 64]
  else
    [0xF0 + n / 262144, 0x80 + n / 4096 % 64, 0x80 + n / 64 % 64,
     0x80 + n % 64]

/-- UTF-8 byte sequence of a string (Go strings are indexed by these
bytes). -/
def utf8Bytes (s : String) : List Nat :=
  (s.toList.map utf8BytesChar).flatten

/-- The FNV-1a fold of `fnv32`. -/
def fnv32 (s : String) : Nat :=
  (utf8Bytes s).foldl (fun h b => ((h ^^^ b) * 16777619) % 2 ^ 32) 2166136261

/-- `tinyBias(label string) float32` from `main.go` /
`internal/app/mathutil.go`: `float32(fnv32(label) % 997) * 1e-9`, a
deterministic offset in `[0, 997e-9)` (the float32 rounding of `1e-9` is
immaterial to every claim, which only uses `0 ≤ tinyBias < 1e-6`). -/
def tinyBias (label : String) : ℚ :=
  ((fnv32 label % 997 : Nat) : ℚ) / 1000000000

/-- `Candidate` from `internal/app/types.go` (the variant with a
normalized `Key`, as consumed by `applyHybridScoring`). -/
structure Candidate where
  Label : String
  Key : String
  Vec : List ℚ
  Source : String
deriving DecidableEq, Repr

/-- Functional update of a string-keyed map (`m[k] = v`). -/
def mapUpdate (m : String → Option ℚ) (k : String) (v : ℚ) :
    String → Option ℚ :=
  fun x => if x = k then some v else m x

/-- `vrCategoryKeySet` from `config.go`: the normalized keys of
`"VR空間"`, `"インタラクション"`, `"アバター"` (ASCII lowering turns `VR`
into `vr`; NFKC is the identity on these literals). -/
def vrCategoryKeySet : List String :=
  ["vr空間", "インタラクション", "アバター"]

/-- `dampCategoryKeys` from `config.go`: the normalized keys of `"教育"`
and `"可視化"`. -/
def dampCategoryKeys : List String :=
  ["教育", "可視化"]

/-- The first pass of `applyHybridScoring` (`config.go` lines 508-536):
for each candidate look up its rule set (an absent key acts as the empty
`compiledRuleSet{}`), count hits, compute the bonus, blend
`alpha*base + beta*(bonus/bonusCap)` (the beta term only when the bonus
is positive), floor at `floorForced` on a strong hit, add the seed bias
and the tiny deterministic bias, clamp to `[0,1]`, and record whether any
VR-category candidate had a strong hit. -/
def scorePass (rules : String → Option compiledRuleSet) (text : String)
    (baseScores : String → ℚ) (seedBias : ℚ) :
    List Candidate → (String → Option ℚ) → (String → Option ℚ) → Bool →
      (String → Option ℚ) × (String → Option ℚ) × Bool
  | [], rb, fs, hv => (rb, fs, hv)
  | c :: rest, rb, fs, hv =>
    let base := baseScores c.Label
    let rcs := (rules c.Key).getD { strong := [], weak := [], anti := [] }
    let hits := countRuleHits text rcs
    let strongHits := hits.1
    let bonus := computeRuleBonus hits.1 hits.2.1 hits.2.2
    let final := alphaWeight * base
    let final := if bonus > 0 then final + betaWeight * (bonus / bonusCapValue) else final
    let final := if strongHits > 0 ∧ final < floorForced then floorForced else final
    let final := clamp01 (final + seedBias + tinyBias c.Key)
    let hv := hv || (vrCategoryKeySet.contains c.Key && decide (strongHits > 0))
    scorePass rules text baseScores seedBias rest
      (mapUpdate rb c.Label bonus) (mapUpdate fs c.Label final) hv

/-- One damping step of `applyHybridScoring` (`config.go` lines 538-557):
for a target key, find the first candidate with that key (the loop breaks
after it) and, if it has a recorded final score, lower the score by
`dampValue`, clamped at zero. -/
def dampOne (cands : List Candidate) (fs : String → Option ℚ)
    (targetKey : String) : String → Option ℚ :=
  if targetKey = "" then fs
  else
    match cands.find? (fun c => c.Key = targetKey) with
    | none => fs
    | some c =>
      match fs c.Label with
      | none => fs
      | some score =>
        let adjusted := score - dampValue
        mapUpdate fs c.Label (if adjusted < 0 then 0 else adjusted)

/-- The sort order of the final
`sort.SliceStable(suggestions, score desc, label asc)` in
`applyHybridScoring`: its reflexive total preorder. -/
def hybGE (a b : Suggestion) : Prop :=
  a.Score > b.Score ∨ (a.Score = b.Score ∧ a.Label ≤ b.Label)

instance : DecidableRel hybGE := fun a b => by
  unfold hybGE; infer_instance

/-- `applyHybridScoring(text, cands, baseScores, seedBias)` from
`config.go` lines 504-576.  The package-global `compiledCategoryRules`
map is passed explicitly as `rules` (exactly as the `unnamed/part_006`
five-argument variant of the same function does); `baseScores` is the Go
map with its zero-value read on missing keys.  Returns the sorted
suggestion list together with the `ruleBonus` and `finalScores` maps. -/
def applyHybridScoring (rules : String → Option compiledRuleSet)
    (text : String) (cands : List Candidate) (baseScores : String → ℚ)
    (seedBias : ℚ) :
    List Suggestion × (String → Option ℚ) × (String → Option ℚ) :=
  let p := scorePass rules text baseScores seedBias cands
    (fun _ => none) (fun _ => none) false
  let ruleBonus := p.1
  let fs := p.2.1
  let hasVRSignal := p.2.2
  let fs :=
    if hasVRSignal then dampCategoryKeys.foldl (dampOne cands) fs else fs
  let suggestions := cands.filterMap fun c =>
    (fs c.Label).map fun score =>
      { Label := c.Label, Score := score, Source := "hybrid",
        Aliases := ([] : List String) }
  (suggestions.insertionSort hybGE, ruleBonus, fs)

end App

/-!  Theorems.  Each claim has exactly one named theorem (plus, for
corrected claims, one counterexample), preceded by helper lemmas where
needed. -/

/-- Zipping commutes with simultaneous `take`. -/
theorem zip_take_eq (a b : List ℚ) (n : Nat) :
    (a.take n).zip (b.take n) = (a.zip b).take n := by
  induction a generalizing b n with
  | nil => simp
  | cons x xs ih =>
    cases b with
    | nil => simp
    | cons y ys =>
      cases n with
      | zero => simp
      | succ m => simp [ih]

/-- Helper: zipping is unchanged by taking `min` of the lengths on both
sides. -/
theorem zip_take_min (a b : List ℚ) :
    (a.take (min a.length b.length)).zip (b.take (min a.length b.length)) =
      a.zip b := by
  rw [zip_take_eq]
  exact List.take_of_length_le (by simp)

/-- C2 (counterexample): `cosine32` applied to the distinct-length pair
`[1,1]` and `[1]` does not return a value — the Go code panics with an
index out of range — contradicting the claim that comparing vectors of
unequal lengths always truncates and returns a value. -/
theorem c2_cosine32_panics :
    App.cosine32 ratSqrt [(1 : ℚ), 1] [(1 : ℚ)] = none ∧
      ([(1 : ℚ), 1].length ≠ [(1 : ℚ)].length) := by
  constructor
  · rfl
  · decide

/-- C2 (amended): `cosineSimilarity` (categorizer index) truncates both
vectors to the shorter length and always returns a value, for every
square-root function; `cosine32` (main app) returns a value exactly when
the first vector is not longer than the second — when it is longer, the
Go code aborts with an index-out-of-range panic instead of truncating. -/
theorem c2_cosine_truncation :
    (∀ (sq : ℚ → ℚ) (a b : List ℚ),
      Cat.cosineSimilarity sq a b =
        Cat.cosineSimilarity sq (a.take (min a.length b.length))
          (b.take (min a.length b.length))) ∧
    (∀ (sq : ℚ → ℚ) (a b : List ℚ),
      (App.cosine32 sq a b).isSome ↔ a.length ≤ b.length) := by
  constructor
  · intro sq a b
    unfold Cat.cosineSimilarity
    rw [zip_take_min]
    have hiff : ((a.take (min a.length b.length)).length = 0 ∨
        (b.take (min a.length b.length)).length = 0) ↔
        (a.length = 0 ∨ b.length = 0) := by
      simp only [List.length_take]
      omega
    by_cases hc : a.length = 0 ∨ b.length = 0
    · rw [if_pos hc, if_pos (hiff.mpr hc)]
    · rw [if_neg hc, if_neg (fun hx => hc (hiff.mp hx))]
  · intro sq a b
    unfold App.cosine32
    split
    · simp only [Option.isSome_none, Bool.false_eq_true, false_iff]
      omega
    · simp only [Option.isSome_some, true_iff]
      omega

/-- C3 (counterexample): the simplified confidence classifier of
`unnamed/part_006` returns `false` on a singleton list whose only score
0.2 is below the default Top1 threshold 0.45, while the claimed
four-trigger characterization requires `true` there. -/
theorem c3_margin_variant_disagrees :
    App.needReviewMargin
        [{ Label := "x", Score := 2 / 10, Source := "seed", Aliases := [] }]
        (3 / 100) = false ∧
      ((2 : ℚ) / 10 < 45 / 100) := by
  constructor
  · rfl
  · norm_num

/-- C3 (amended): the four-trigger classifier (`needReview` in `main.go`
and `unnamed/part_005`) returns true exactly when the list is empty, the
top-1 score is below `Top1`, the top1−top2 gap (top2 read as 0 for a
singleton) is below `Margin12`, or the mean score is below `Mean`; the
`unnamed/part_006` variant instead returns true exactly when the list is
empty, or has at least two entries with a positive margin threshold and a
top1−top2 gap below it. -/
theorem c3_needReview_characterization :
    (∀ (l : List App.Suggestion) (th : App.Threshold),
      App.needReview l th = true ↔
        (l = [] ∨
          (l.map App.Suggestion.Score).headD 0 < th.Top1 ∨
          (l.map App.Suggestion.Score).headD 0 -
              ((l.map App.Suggestion.Score).drop 1).headD 0 < th.Margin12 ∨
          (l.map App.Suggestion.Score).sum / l.length < th.Mean)) ∧
    (∀ (l : List App.Suggestion) (d : ℚ),
      App.needReviewMargin l d = true ↔
        (l = [] ∨
          (2 ≤ l.length ∧ 0 < d ∧
            (l.map App.Suggestion.Score).headD 0 -
              ((l.map App.Suggestion.Score).drop 1).headD 0 < d))) := by
  constructor
  · intro l th
    match l with
    | [] => simp [App.needReview]
    | [s] =>
      simp only [App.needReview, App.meanScore]
      norm_num
      tauto
    | s :: s2 :: rest =>
      simp only [App.needReview, App.meanScore]
      norm_num
      tauto
  · intro l d
    match l with
    | [] => simp [App.needReviewMargin]
    | [s] =>
      simp [App.needReviewMargin]
    | s :: s2 :: rest =>
      by_cases hd : d ≤ 0
      · simp only [App.needReviewMargin, List.length_cons]
        rw [if_neg (by omega : ¬(rest.length + 1 + 1 < 2)), if_pos hd]
        simp only [Bool.false_eq_true, false_iff]
        rintro (h | ⟨_, h0, _⟩)
        · exact absurd h (by simp)
        · linarith
      · push_neg at hd
        simp only [App.needReviewMargin, List.length_cons]
        have h2 : ¬(rest.length + 1 + 1 < 2) := by omega
        simp only [if_neg h2, if_neg (by linarith : ¬d ≤ 0)]
        simp only [decide_eq_true_eq, List.map_cons, List.headD_cons,
          List.drop_succ_cons, List.drop_zero]
        constructor
        · intro h
          exact Or.inr ⟨by omega, hd, h⟩
        · rintro (h | h)
          · exact absurd h (by simp)
          · exact h.2.2

/-- C4 (counterexample): with default thresholds, the suggestion list
with scores `[0.9, 0.2]` yields `needReview = false` — no trigger fires
(top1 0.9 ≥ 0.45, margin 0.7 ≥ 0.03, mean 0.55 ≥ 0.50) — whereas the
claim asserts `true` via the margin trigger. -/
theorem c4_counterexample :
    App.needReview
        [{ Label := "a", Score := 9 / 10, Source := "seed", Aliases := [] },
         { Label := "b", Score := 2 / 10, Source := "seed", Aliases := [] }]
        App.defaultThresh = false := by
  with_unfolding_all decide

/-- C4 (amended): with default thresholds, both two-suggestion lists of
the claim — scores `[0.9, 0.2]` and `[0.9, 0.85]` — yield
`needReview = false`: in the first no trigger fires (margin 0.7 and mean
0.55 are above their thresholds), and in the second none fires either. -/
theorem c4_default_examples :
    App.needReview
        [{ Label := "a", Score := 9 / 10, Source := "seed", Aliases := [] },
         { Label := "b", Score := 2 / 10, Source := "seed", Aliases := [] }]
        App.defaultThresh = false ∧
    App.needReview
        [{ Label := "a", Score := 9 / 10, Source := "seed", Aliases := [] },
         { Label := "b", Score := 85 / 100, Source := "seed", Aliases := [] }]
        App.defaultThresh = false := by
  constructor <;> with_unfolding_all decide

/-- C7 (counterexample): `sanitizeConfig` leaves a cluster threshold of
2.0 (outside the documented open interval `(0,1)`) and a review margin of
0 (not positive) untouched: it only replaces non-positive thresholds and
negative margins. -/
theorem c7_sanitize_counterexample :
    (App.sanitizeConfig
        { TopK := 3, Mode := "seeded", UseNDC := false, WeightNDC := 1,
          SeedBias := 0,
          Thresh := { Top1 := 45 / 100, Margin12 := 0, Mean := 1 / 2 },
          ClusterCfg := { Enabled := true, Threshold := 2 } }).ClusterCfg.Threshold
        = 2 ∧
    (App.sanitizeConfig
        { TopK := 3, Mode := "seeded", UseNDC := false, WeightNDC := 1,
          SeedBias := 0,
          Thresh := { Top1 := 45 / 100, Margin12 := 0, Mean := 1 / 2 },
          ClusterCfg := { Enabled := true, Threshold := 2 } }).Thresh.Margin12
        = 0 ∧
    ¬((2 : ℚ) < 1) ∧ ¬((0 : ℚ) > 0) := by
  refine ⟨?_, ?_, by norm_num, by norm_num⟩
  · with_unfolding_all rfl
  · with_unfolding_all rfl

/-- C7 (amended): after `sanitizeConfig`, the mode is one of
seeded/mixed/split, `topK ∈ [3,5]`, the taxonomy weight lies in
`[0.5,1.2]`, the seed bias in `[0,0.2]`, and the cluster threshold, the
Top1 threshold and the Mean threshold are positive — but the cluster
threshold is not clamped above (values ≥ 1 survive) and the Margin12
threshold is only guaranteed non-negative (an input of exactly 0 is
kept). -/
theorem c7_sanitize_ranges (cfg : App.Config) :
    3 ≤ (App.sanitizeConfig cfg).TopK ∧ (App.sanitizeConfig cfg).TopK ≤ 5 ∧
    ((App.sanitizeConfig cfg).Mode = App.ModeSeeded ∨
      (App.sanitizeConfig cfg).Mode = App.ModeMixed ∨
      (App.sanitizeConfig cfg).Mode = App.ModeSplit) ∧
    1 / 2 ≤ (App.sanitizeConfig cfg).WeightNDC ∧
    (App.sanitizeConfig cfg).WeightNDC ≤ 6 / 5 ∧
    0 ≤ (App.sanitizeConfig cfg).SeedBias ∧
    (App.sanitizeConfig cfg).SeedBias ≤ 1 / 5 ∧
    0 < (App.sanitizeConfig cfg).ClusterCfg.Threshold ∧
    0 < (App.sanitizeConfig cfg).Thresh.Top1 ∧
    0 ≤ (App.sanitizeConfig cfg).Thresh.Margin12 ∧
    0 < (App.sanitizeConfig cfg).Thresh.Mean := by
  unfold App.sanitizeConfig
  dsimp only
  refine ⟨?_, ?_, ?_, ?_, ?_, ?_, ?_, ?_, ?_, ?_, ?_⟩ <;>
    split_ifs <;> first | omega | tauto | linarith

/-- Serialized vectors occupy exactly four bytes per word. -/
theorem wordsToBytesLE_length (v : List Nat) :
    (wordsToBytesLE v).length = 4 * v.length := by
  induction v with
  | nil => rfl
  | cons x xs ih =>
    have hstep : wordsToBytesLE (x :: xs) = u32ToBytesLE x ++ wordsToBytesLE xs := by
      simp [wordsToBytesLE]
    rw [hstep, List.length_append, ih,
      show (u32ToBytesLE x).length = 4 from rfl, List.length_cons]
    omega

/-- Little-endian 32-bit serialization round-trips on words below 2^32. -/
theorem bytesToWordsLE_roundtrip (v : List Nat) (hv : ∀ x ∈ v, x < 2 ^ 32) :
    bytesToWordsLE (wordsToBytesLE v) = v := by
  induction v with
  | nil => rfl
  | cons x xs ih =>
    have hx : x < 2 ^ 32 := hv x (by simp)
    have hxs : ∀ y ∈ xs, y < 2 ^ 32 := fun y hy => hv y (by simp [hy])
    have hstep : wordsToBytesLE (x :: xs) = u32ToBytesLE x ++ wordsToBytesLE xs := by
      simp [wordsToBytesLE]
    rw [hstep]
    show bytesToU32LE (x % 2 ^ 32 % 256) (x % 2 ^ 32 / 256 % 256)
        (x % 2 ^ 32 / 65536 % 256) (x % 2 ^ 32 / 16777216 % 256) ::
        bytesToWordsLE (wordsToBytesLE xs) = x :: xs
    rw [ih hxs]
    unfold bytesToU32LE
    have : x % 2 ^ 32 = x := Nat.mod_eq_of_lt hx
    rw [this]
    simp only [List.cons.injEq, and_true]
    omega

/-- C10: saving a vector to the disk cache and loading it back returns
the vector unchanged (bit-for-bit, hence element-wise equal within
float32 precision), for vectors of length 0, 1 or 1024 — through both the
main app's `embedCache` (`save`/`load`) and the categorizer's
`OrtEmbedder` (`saveToDisk`/`loadFromDisk`). -/
theorem c10_cache_roundtrip (v : List Nat) (hv : ∀ x ∈ v, x < 2 ^ 32)
    (hlen : v.length = 0 ∨ v.length = 1 ∨ v.length = 1024) :
    App.cacheLoad (some (App.cacheSave v)) = .ok (some v) ∧
      Cat.loadFromDisk (some (Cat.saveToDisk v)) = .ok v := by
  have hlen' : v.length < 2 ^ 32 := by omega
  have hmod : v.length % 2 ^ 32 = v.length := Nat.mod_eq_of_lt hlen'
  have hbody := wordsToBytesLE_length v
  have hdec : bytesToU32LE (v.length % 2 ^ 32 % 256)
      (v.length % 2 ^ 32 / 256 % 256) (v.length % 2 ^ 32 / 65536 % 256)
      (v.length % 2 ^ 32 / 16777216 % 256) = v.length := by
    unfold bytesToU32LE
    rw [hmod]
    omega
  constructor
  · rw [show App.cacheSave v = (v.length % 2 ^ 32 % 256) ::
        (v.length % 2 ^ 32 / 256 % 256) :: (v.length % 2 ^ 32 / 65536 % 256) ::
        (v.length % 2 ^ 32 / 16777216 % 256) :: wordsToBytesLE v from rfl]
    unfold App.cacheLoad
    simp only [hdec, List.length_cons, hbody]
    rw [if_neg (by omega), if_neg (by omega),
      List.take_of_length_le (by omega), bytesToWordsLE_roundtrip v hv]
  · rw [show Cat.saveToDisk v = (v.length % 2 ^ 32 % 256) ::
        (v.length % 2 ^ 32 / 256 % 256) :: (v.length % 2 ^ 32 / 65536 % 256) ::
        (v.length % 2 ^ 32 / 16777216 % 256) :: wordsToBytesLE v from rfl]
    unfold Cat.loadFromDisk
    simp only [hdec, List.length_cons, hbody]
    rw [if_neg (by omega), if_neg (by omega), bytesToWordsLE_roundtrip v hv]

/-- C10 (witness): the round-trip theorem applied to the length-1 vector
`[5]`. -/
theorem c10_cache_roundtrip_witness :
    App.cacheLoad (some (App.cacheSave [5])) = .ok (some [5]) ∧
      Cat.loadFromDisk (some (Cat.saveToDisk [5])) = .ok [5] :=
  c10_cache_roundtrip [5] (by decide) (by decide)

/-- C5 (counterexample): with an empty memory cache, a 3-byte cache file
(a truncated header) makes the main app's `EmbedCached` return the error
`cache file broken` instead of recomputing through the encoder — the
claim requires a too-short file to be treated as a cache miss with the
vector recomputed. -/
theorem c5_short_file_is_error :
    App.EmbedCached none (some [0, 0, 0]) (.ok [42]) =
        .error "cache file broken" ∧
      App.EmbedCached none (some [0, 0, 0]) (.ok [42]) ≠ .ok [42] := by
  constructor
  · rfl
  · intro hcontra
    rw [show App.EmbedCached none (some [0, 0, 0]) (.ok [42]) =
        .error "cache file broken" from rfl] at hcontra
    exact Except.noConfusion hcontra

/-- C5 (amended): the two cache implementations disagree, and neither
implements the claim's split.  In the categorizer's `OrtEmbedder`, every
corrupt read — too-short file or byte-count mismatch — falls through to
the encoder (a logical cache miss, no error).  In the main app's
`embedCache`-backed `EmbedCached`, a too-short file surfaces as the error
`cache file broken` and a body shorter than the declared count as the
error `cache truncated`; neither is recomputed. -/
theorem c5_corrupt_cache_behaviour :
    (∀ (data : List Nat) (enc : Except String (List Nat)),
      data.length < 4 → Cat.EmbedText none (some data) enc = enc) ∧
    (∀ (b0 b1 b2 b3 : Nat) (rest : List Nat) (enc : Except String (List Nat)),
      rest.length ≠ bytesToU32LE b0 b1 b2 b3 * 4 →
        Cat.EmbedText none (some (b0 :: b1 :: b2 :: b3 :: rest)) enc = enc) ∧
    (∀ (data : List Nat) (enc : Except String (List Nat)),
      data.length < 4 →
        App.EmbedCached none (some data) enc = .error "cache file broken") ∧
    (∀ (b0 b1 b2 b3 : Nat) (rest : List Nat) (enc : Except String (List Nat)),
      rest.length < bytesToU32LE b0 b1 b2 b3 * 4 →
        App.EmbedCached none (some (b0 :: b1 :: b2 :: b3 :: rest)) enc =
          .error "cache truncated") := by
  refine ⟨?_, ?_, ?_, ?_⟩
  · intro data enc h
    unfold Cat.EmbedText Cat.loadFromDisk
    dsimp only
    rw [if_pos h]
  · intro b0 b1 b2 b3 rest enc h
    unfold Cat.EmbedText Cat.loadFromDisk
    dsimp only
    rw [if_neg (by simp), if_pos h]
  · intro data enc h
    unfold App.EmbedCached App.cacheLoad
    dsimp only
    rw [if_pos h]
  · intro b0 b1 b2 b3 rest enc h
    unfold App.EmbedCached App.cacheLoad
    dsimp only
    rw [if_neg (by simp)]
    rw [if_pos (by simp only [List.length_cons]; omega)]

/-- C5 (witness): the amended behaviour at concrete inputs — a 1-byte
file recomputed by the categorizer embedder, and a declared count of 9
with an empty body surfacing `cache truncated` from the main app. -/
theorem c5_corrupt_cache_witness :
    Cat.EmbedText none (some [0]) (.ok [7]) = .ok [7] ∧
      App.EmbedCached none (some [9, 0, 0, 0]) (.ok [7]) =
        .error "cache truncated" := by
  constructor
  · exact c5_corrupt_cache_behaviour.1 [0] (.ok [7]) (by decide)
  · exact c5_corrupt_cache_behaviour.2.2.2 9 0 0 0 [] (.ok [7]) (by decide)

/-- C6: `rankForVector` with an unknown or unset mode — any value other
than the three recognized constants, including the empty string —
produces exactly the same result row as `"seeded"` mode: the switch's
default case ranks only seed candidates, clusters them if enabled and
truncates to top-k, so unrecognized modes never yield empty suggestions
merely because the mode string is unrecognized. -/
theorem c6_unknown_mode_is_seeded (sq : ℚ → ℚ)
    (seedItems ndcItems : List Cat.VectorItem) (vec : List ℚ) (text : String)
    (cfg : Cat.Config) (h1 : cfg.Mode ≠ "seeded") (h2 : cfg.Mode ≠ "split")
    (h3 : cfg.Mode ≠ "mixed") :
    Cat.rankForVector sq seedItems ndcItems vec text cfg =
      Cat.rankForVector sq seedItems ndcItems vec text
        { cfg with Mode := "seeded" } := by
  unfold Cat.rankForVector
  dsimp only
  rw [if_neg h1, if_neg h2, if_neg h3, if_pos rfl]

/-- C6 (witness): the unknown-mode theorem applied to a concrete
configuration with mode `"foo"` and a singleton seed store. -/
theorem c6_unknown_mode_witness :
    Cat.rankForVector ratSqrt
        [{ Label := "a", Source := "seed", Vector := [1] }] [] [1] "t"
        { Mode := "foo", TopK := 3, SeedBias := 0, MinScore := 0,
          Cluster := { Enabled := false, Threshold := 8 / 10 },
          UseNDC := false } =
      Cat.rankForVector ratSqrt
        [{ Label := "a", Source := "seed", Vector := [1] }] [] [1] "t"
        { Mode := "seeded", TopK := 3, SeedBias := 0, MinScore := 0,
          Cluster := { Enabled := false, Threshold := 8 / 10 },
          UseNDC := false } :=
  c6_unknown_mode_is_seeded ratSqrt _ _ _ _ _ (by decide) (by decide)
    (by decide)

/-- Concrete vector lookup for the C9 counterexample: label `a` resolves
to `[1]`, label `b` to the distinct parallel vector `[2]`. -/
def c9lookup : String → Option (List ℚ) :=
  fun l => if l = "a" then some [(1 : ℚ)] else
    if l = "b" then some [(2 : ℚ)] else none

/-- C9 (counterexample): at `tau = 1.0`, `clusterSuggestions` merges the
two suggestions labelled `a` and `b` even though their vectors `[1]` and
`[2]` are distinct — their cosine similarity is exactly 1 (the vectors
are positively parallel, and `math.Sqrt` is exact on these squares), so
the `>= tau` merge test fires and the output collapses to a single
suggestion with `b` as an alias. -/
theorem c9_tau_one_merges_distinct :
    c9lookup "a" ≠ c9lookup "b" ∧
      App.clusterSuggestions ratSqrt
          [{ Label := "a", Score := 9 / 10, Source := "seed", Aliases := [] },
           { Label := "b", Score := 8 / 10, Source := "seed", Aliases := [] }]
          1 c9lookup =
        some [{ Label := "a", Score := 9 / 10, Source := "seed",
                Aliases := ["b"] }] := by
  constructor
  · intro h
    rw [show c9lookup "a" = some [(1 : ℚ)] from rfl,
      show c9lookup "b" = some [(2 : ℚ)] from rfl] at h
    simp at h
  · with_unfolding_all rfl

/-- Helper: the assignment scan matches no cluster when every resolvable
cluster representative has cosine similarity strictly below `tau`. -/
theorem assignSuggestion_no_match (sq : ℚ → ℚ) (tau : ℚ)
    (lookup : String → Option (List ℚ)) (vec : List ℚ)
    (sug : App.Suggestion) (clusters : List App.Suggestion)
    (h : ∀ c ∈ clusters, ∀ vc, lookup c.Label = some vc →
      ∃ sc, App.cosine32 sq vec vc = some sc ∧ sc < tau) :
    App.assignSuggestion sq tau lookup vec sug clusters = some none := by
  induction clusters with
  | nil => rfl
  | cons c rest ih =>
    unfold App.assignSuggestion
    have hrest : ∀ c' ∈ rest, ∀ vc, lookup c'.Label = some vc →
        ∃ sc, App.cosine32 sq vec vc = some sc ∧ sc < tau :=
      fun c' hc' => h c' (by simp [hc'])
    cases hl : lookup c.Label with
    | none =>
      dsimp only
      rw [ih hrest]
      rfl
    | some vc =>
      obtain ⟨sc, hcos, hlt⟩ := h c (by simp) vc hl
      dsimp only
      rw [hcos]
      dsimp only
      rw [if_neg (by linarith)]
      rw [ih hrest]
      rfl

/-- Helper: when no suggestion matches any earlier cluster, the building
pass appends every suggestion as its own cluster. -/
theorem buildSugClusters_no_merge (sq : ℚ → ℚ) (tau : ℚ)
    (lookup : String → Option (List ℚ)) :
    ∀ (inp acc : List App.Suggestion),
      (∀ s ∈ inp, ∀ c ∈ acc, ∀ vs vc, lookup s.Label = some vs →
        lookup c.Label = some vc →
        ∃ sc, App.cosine32 sq vs vc = some sc ∧ sc < tau) →
      List.Pairwise (fun a b => ∀ va vb, lookup a.Label = some va →
        lookup b.Label = some vb →
        ∃ sc, App.cosine32 sq vb va = some sc ∧ sc < tau) inp →
      App.buildSugClusters sq tau lookup acc inp = some (acc ++ inp) := by
  intro inp
  induction inp with
  | nil => intro acc _ _; simp [App.buildSugClusters]
  | cons s rest ih =>
    intro acc hacc hpw
    have hpw' := List.pairwise_cons.mp hpw
    have hacc' : ∀ s' ∈ rest, ∀ c ∈ acc ++ [s], ∀ vs vc,
        lookup s'.Label = some vs → lookup c.Label = some vc →
        ∃ sc, App.cosine32 sq vs vc = some sc ∧ sc < tau := by
      intro s' hs' c hc vs vc hvs hvc
      rcases List.mem_append.mp hc with hc | hc
      · exact hacc s' (by simp [hs']) c hc vs vc hvs hvc
      · have : c = s := by simpa using hc
        subst this
        exact hpw'.1 s' hs' vc vs hvc hvs
    unfold App.buildSugClusters
    cases hl : lookup s.Label with
    | none =>
      dsimp only
      rw [ih (acc ++ [s]) hacc' hpw'.2]
      simp
    | some vs =>
      dsimp only
      rw [assignSuggestion_no_match sq tau lookup vs s acc
        (fun c hc vc hvc => hacc s (by simp) c hc vs vc hl hvc)]
      dsimp only
      rw [ih (acc ++ [s]) hacc' hpw'.2]
      simp

/-- C9 (amended): `clusterHits` with `tau ≤ 0` (the variant carrying its
own guard) returns its input unchanged; and `clusterSuggestions` — which
has no such guard and is only protected by its call sites — never merges
suggestions all of whose resolvable vector pairs have cosine similarity
strictly below `tau`: on a descending-sorted input it returns the input
unchanged.  At `tau = 1.0` this means only pairs of exact cosine 1
(positively parallel vectors, possibly distinct) can be merged. -/
theorem c9_cluster_threshold_behaviour :
    (∀ (sq : ℚ → ℚ) (hits : List Cat.Hit) (tau : ℚ), tau ≤ 0 →
      Cat.clusterHits sq hits tau = hits) ∧
    (∀ (sq : ℚ → ℚ) (inp : List App.Suggestion) (tau : ℚ)
      (lookup : String → Option (List ℚ)),
      inp.Sorted App.scoreGE →
      List.Pairwise (fun a b => ∀ va vb, lookup a.Label = some va →
        lookup b.Label = some vb →
        ∃ sc, App.cosine32 sq vb va = some sc ∧ sc < tau) inp →
      App.clusterSuggestions sq inp tau lookup = some inp) := by
  constructor
  · intro sq hits tau h
    unfold Cat.clusterHits
    rw [if_pos (Or.inr h)]
  · intro sq inp tau lookup hsorted hpw
    unfold App.clusterSuggestions
    by_cases hlen : inp.length ≤ 1
    · rw [if_pos hlen]
    · rw [if_neg hlen,
        buildSugClusters_no_merge sq tau lookup inp [] (by simp) hpw]
      simp only [Option.map, List.nil_append]
      rw [List.Sorted.insertionSort_eq hsorted]

/-- C9 (witness): the amended theorem at concrete inputs — a singleton
hit list with `tau = 0`, and a sorted two-suggestion list with orthogonal
vectors (cosine 0) under `tau = 1/2`. -/
theorem c9_cluster_threshold_witness :
    Cat.clusterHits ratSqrt
        [{ Label := "a", Score := 1, Source := "seed", Vector := [1] }] 0 =
      [{ Label := "a", Score := 1, Source := "seed", Vector := [1] }] ∧
    App.clusterSuggestions ratSqrt
        [{ Label := "a", Score := 9 / 10, Source := "seed", Aliases := [] },
         { Label := "b", Score := 8 / 10, Source := "seed", Aliases := [] }]
        (1 / 2)
        (fun l => if l = "a" then some [(1 : ℚ), 0] else
          if l = "b" then some [(0 : ℚ), 1] else none) =
      some
        [{ Label := "a", Score := 9 / 10, Source := "seed", Aliases := [] },
         { Label := "b", Score := 8 / 10, Source := "seed", Aliases := [] }] := by
  constructor
  · exact c9_cluster_threshold_behaviour.1 ratSqrt _ 0 le_rfl
  · refine c9_cluster_threshold_behaviour.2 ratSqrt _ (1 / 2) _ ?_ ?_
    · refine List.pairwise_cons.mpr ⟨?_, by simp⟩
      intro b hb
      have : b = { Label := "b", Score := 8 / 10, Source := "seed",
                   Aliases := ([] : List String) } := by simpa using hb
      subst this
      show App.scoreGE _ _
      unfold App.scoreGE
      norm_num
    · refine List.pairwise_cons.mpr ⟨?_, by simp⟩
      intro b hb va vb hva hvb
      have hb' : b = { Label := "b", Score := 8 / 10, Source := "seed",
                       Aliases := ([] : List String) } := by simpa using hb
      subst hb'
      have hva' : va = [(1 : ℚ), 0] := by
        simp at hva
        exact hva.symm
      have hvb' : vb = [(0 : ℚ), 1] := by
        simp at hvb
        exact hvb.symm
      subst hva' hvb'
      refine ⟨0, ?_, by norm_num⟩
      with_unfolding_all rfl

namespace App

/-- `rawCategoryRules` from `config.go` lines 131-471: the built-in
keyword rule table, in source order (a Go map is iterated only to build
the compiled lookup table, so order is immaterial). -/
def rawCategoryRules : List (String × keywordRuleSet) :=
  [("CG・デジタルアーカイブ",
    { Strong := ["デジタルアーカイブ", "文化財", "文化遺産", "博物館資料",
        "フォトグラメトリ", "写真測量", "三次元復元", "3D復元", "点群",
        "LiDAR", "レーザースキャン", "スキャンデータ", "メッシュ再構成",
        "SfM", "Structure from Motion"],
      Weak := ["モデリング", "リトポロジー", "リトポ", "UV展開", "テクスチャ",
        "ベイク", "レンダリング", "GLTF", "GLB", "OBJ", "PLY", "点群処理",
        "データ保存", "アノテーション"],
      Anti := [] }),
   ("VR空間",
    { Strong := ["VR空間", "仮想空間", "仮想環境", "仮想世界", "メタバース",
        "VRChat", "cluster", "Neos", "Spatial", "HMD",
        "ヘッドマウントディスプレイ", "Oculus", "Meta Quest", "Quest2",
        "Quest3", "Vive", "Index", "OpenXR"],
      Weak := ["インスタンス", "ワールド", "ルームスケール", "トラッキング",
        "フルトラ", "IK", "アイトラ", "ハンドトラッキング", "アイトラッキング"],
      Anti := [] }),
   ("アバター",
    { Strong := ["アバター", "アバター生成", "アバター編集", "フェイシャル",
        "表情認識", "モーションキャプチャ", "モーキャプ", "リギング",
        "スキニング", "ボーン", "ブレンドシェイプ", "VRCアバター", "VRM",
        "Humanoid"],
      Weak := ["衣装", "衣装替え", "髪物理", "揺れもの", "体型調整",
        "顔トラッキング", "表情制御"],
      Anti := [] }),
   ("インタラクション",
    { Strong := ["インタラクション", "UI", "UX", "操作手法", "選択操作",
        "ポインティング", "ジェスチャ", "姿勢推定", "身体性", "ハプティクス",
        "触覚提示", "力覚提示", "モーダル切替", "メニュー操作"],
      Weak := ["没入感", "プレゼンス", "使い勝手", "フィードバック",
        "提示手法", "視線入力", "手入力", "音声入力"],
      Anti := [] }),
   ("エージェント",
    { Strong := ["エージェント", "会話エージェント", "対話エージェント",
        "自律エージェント", "LLMエージェント", "NPC", "行動計画",
        "プランニング", "強化学習", "RL", "Reinforcement Learning"],
      Weak := ["アシスタント", "ナビゲーション", "案内", "対話支援",
        "ルールベース"],
      Anti := [] }),
   ("コミュニケーション",
    { Strong := ["コミュニケーション", "会話", "対話", "交流",
        "ソーシャルサポート", "関係構築", "協調作業", "コラボレーション"],
      Weak := ["雑談", "アイスブレイク", "発話", "感情", "感情推定", "同席感"],
      Anti := [] }),
   ("ソーシャルVR",
    { Strong := ["ソーシャルVR", "VRChat", "cluster", "Neos",
        "メタバースプラットフォーム", "インスタンス制御", "フレンド機能",
        "イベント開催"],
      Weak := ["アバターマーケット", "ワールドアップロード", "コミュニティ運営",
        "Booth", "配信イベント"],
      Anti := [] }),
   ("可視化",
    { Strong := ["可視化", "視覚化", "可視化手法", "可視化技術", "可視化結果",
        "ボリュームレンダリング", "等値面", "流線", "点群可視化"],
      Weak := ["3D可視化", "VR可視化", "インタラクティブ可視化", "可視化ツール"],
      Anti := [] }),
   ("工学・サイエンスコミュニケーション",
    { Strong := ["科学コミュニケーション", "サイエンスコミュニケーション",
        "アウトリーチ", "展示解説", "科学館", "博物館", "ミュージアム",
        "STEAM"],
      Weak := ["市民参加", "ワークショップ", "普及啓発", "体験学習"],
      Anti := [] }),
   ("応用数理",
    { Strong := ["最適化", "数値解析", "数理モデル", "シミュレーション",
        "微分方程式", "ベイズ推定", "確率過程", "離散化", "有限要素法", "FEM"],
      Weak := ["近似", "数理的", "解析的", "再現実験"],
      Anti := [] }),
   ("感覚・知覚",
    { Strong := ["知覚", "感覚", "多感覚", "触覚", "前庭", "視覚認知", "錯視",
        "VR酔い", "サッカード", "順応", "感度"],
      Weak := ["感性", "疲労", "快不快", "主観評価", "SSQ", "SUS"],
      Anti := [] }),
   ("教育",
    { Strong := ["教育", "授業", "教材", "学習", "訓練", "トレーニング",
        "指導", "評価", "ルーブリック", "授業設計"],
      Weak := ["eラーニング", "学習効果", "学習支援", "教育実践", "実証授業"],
      Anti := [] }),
   ("機械学習",
    { Strong := ["機械学習", "ディープラーニング", "深層学習",
        "ニューラルネットワーク", "Transformer", "BERT", "学習モデル",
        "分類器", "回帰"],
      Weak := ["特徴量", "埋め込み", "ベクトル", "クラスタリング", "次元削減"],
      Anti := [] }),
   ("社会",
    { Strong := ["社会", "倫理", "ガバナンス", "プライバシー", "規範", "制度",
        "アクセシビリティ", "包摂", "障害当事者"],
      Weak := ["普及", "受容", "合意形成", "文化", "コミュニティ規約"],
      Anti := [] })]

/-- `compileCategoryRules` from `config.go` lines 578-592: normalize each
label into its key (skipping empty keys) and each keyword list. -/
def compileCategoryRules (raw : List (String × keywordRuleSet)) :
    List (String × compiledRuleSet) :=
  raw.filterMap fun p =>
    let key := normalizeKey p.1
    if key = "" then none
    else some (key,
      { strong := normalizeKeywordList p.2.Strong,
        weak := normalizeKeywordList p.2.Weak,
        anti := normalizeKeywordList p.2.Anti })

/-- `compiledCategoryRules` — the package-global compiled table. -/
def compiledCategoryRules : List (String × compiledRuleSet) :=
  compileCategoryRules rawCategoryRules

/-- Lookup in the compiled rule table (the Go map read
`compiledCategoryRules[c.Key]`). -/
def categoryRules : String → Option compiledRuleSet :=
  fun key => (compiledCategoryRules.find? (fun p => p.1 = key)).map (fun p => p.2)

end App

/-- C8 (counterexample): in the hybrid scorer with the built-in rule
table, the seed candidate `教育` has a strong keyword hit in the text
`教育 vr空間`, so its blended score is floored at 0.60 — but the text
also carries a strong VR-category signal (`vr空間`), and the subsequent
cross-category damping subtracts 0.03 from `教育`, leaving its final
score 0.570000907 strictly below the 0.60 floor.  The claim's
"regardless of the blended value" guarantee therefore fails. -/
theorem c8_damping_breaks_floor :
    0 < (App.countRuleHits "教育 vr空間"
      ((App.categoryRules "教育").getD
        { strong := [], weak := [], anti := [] })).1 ∧
    (App.applyHybridScoring App.categoryRules "教育 vr空間"
        [{ Label := "教育", Key := "教育", Vec := [], Source := "seed" },
         { Label := "VR空間", Key := "vr空間", Vec := [], Source := "seed" }]
        (fun _ => 0) 0).2.2 "教育" = some (570000907 / 1000000000) ∧
    (570000907 : ℚ) / 1000000000 < App.floorForced := by
  refine ⟨by with_unfolding_all decide, ?_, ?_⟩
  · with_unfolding_all rfl
  · unfold App.floorForced
    norm_num

namespace App

/-- The per-candidate score computed by the first pass of
`applyHybridScoring` (the value stored into `finalScores[c.Label]`). -/
def scoreOfCand (rules : String → Option compiledRuleSet) (text : String)
    (baseScores : String → ℚ) (seedBias : ℚ) (c : Candidate) : ℚ :=
  let base := baseScores c.Label
  let rcs := (rules c.Key).getD { strong := [], weak := [], anti := [] }
  let hits := countRuleHits text rcs
  let bonus := computeRuleBonus hits.1 hits.2.1 hits.2.2
  let final := alphaWeight * base
  let final := if bonus > 0 then final + betaWeight * (bonus / bonusCapValue) else final
  let final := if hits.1 > 0 ∧ final < floorForced then floorForced else final
  clamp01 (final + seedBias + tinyBias c.Key)

end App

/-- Helper: the scoring pass never alters entries for labels not among
the processed candidates. -/
theorem scorePass_unchanged (rules : String → Option App.compiledRuleSet)
    (text : String) (baseScores : String → ℚ) (seedBias : ℚ) :
    ∀ (cands : List App.Candidate) (rb fs : String → Option ℚ) (hv : Bool)
      (l : String), l ∉ cands.map App.Candidate.Label →
      (App.scorePass rules text baseScores seedBias cands rb fs hv).2.1 l =
        fs l := by
  intro cands
  induction cands with
  | nil => intro rb fs hv l _; rfl
  | cons c0 rest ih =>
    intro rb fs hv l hl
    have hne : l ≠ c0.Label := by
      intro h
      exact hl (by simp [h])
    have hrest : l ∉ rest.map App.Candidate.Label := by
      intro h
      exact hl (by simp [h])
    unfold App.scorePass
    rw [ih _ _ _ l hrest]
    unfold App.mapUpdate
    rw [if_neg hne]

/-- Helper: the scoring pass records `scoreOfCand` for each candidate
when the candidate labels are distinct. -/
theorem scorePass_lookup (rules : String → Option App.compiledRuleSet)
    (text : String) (baseScores : String → ℚ) (seedBias : ℚ) :
    ∀ (cands : List App.Candidate) (rb fs : String → Option ℚ) (hv : Bool)
      (c : App.Candidate), c ∈ cands →
      (cands.map App.Candidate.Label).Nodup →
      (App.scorePass rules text baseScores seedBias cands rb fs hv).2.1
          c.Label =
        some (App.scoreOfCand rules text baseScores seedBias c) := by
  intro cands
  induction cands with
  | nil => intro rb fs hv c hc; exact absurd hc (by simp)
  | cons c0 rest ih =>
    intro rb fs hv c hc hnodup
    have hnodup' : c0.Label ∉ rest.map App.Candidate.Label ∧
        (rest.map App.Candidate.Label).Nodup := by
      rw [List.map_cons, List.nodup_cons] at hnodup
      exact hnodup
    by_cases heq : c = c0
    · subst heq
      unfold App.scorePass
      rw [scorePass_unchanged rules text baseScores seedBias rest _ _ _
        c.Label hnodup'.1]
      unfold App.mapUpdate
      rw [if_pos rfl]
      rfl
    · have hc' : c ∈ rest := by
        rcases List.mem_cons.mp hc with h | h
        · exact absurd h heq
        · exact h
      unfold App.scorePass
      exact ih _ _ _ c hc' hnodup'.2

/-- Helper: one damping step leaves entries of other labels untouched. -/
theorem dampOne_other (cands : List App.Candidate) (fs : String → Option ℚ)
    (targetKey : String) (l : String)
    (h : ∀ c' , cands.find? (fun c => c.Key = targetKey) = some c' →
      c'.Label ≠ l) :
    App.dampOne cands fs targetKey l = fs l := by
  by_cases hk : targetKey = ""
  · unfold App.dampOne
    rw [if_pos hk]
  · rcases hfind : cands.find? (fun c => c.Key = targetKey) with _ | c'
    · unfold App.dampOne
      rw [if_neg hk, hfind]
    · unfold App.dampOne
      rw [if_neg hk, hfind]
      dsimp only
      rcases hscore : fs c'.Label with _ | score
      · rfl
      · dsimp only
        unfold App.mapUpdate
        rw [if_neg (fun hx => (h c' hfind) hx.symm)]

/-- Helper: the damping fold leaves entries untouched for labels of
candidates outside the damped categories, given distinct labels. -/
theorem dampFold_other (cands : List App.Candidate) (l : String) :
    ∀ (keys : List String) (fs : String → Option ℚ),
      (∀ k ∈ keys, ∀ c', cands.find? (fun c => c.Key = k) = some c' →
        c'.Label ≠ l) →
      (keys.foldl (App.dampOne cands) fs) l = fs l := by
  intro keys
  induction keys with
  | nil => intro fs _; rfl
  | cons k rest ih =>
    intro fs h
    show (rest.foldl (App.dampOne cands) (App.dampOne cands fs k)) l = fs l
    rw [ih _ (fun k' hk' => h k' (by simp [hk']))]
    exact dampOne_other cands fs k l (h k (by simp))

/-- Helper: `clamp01` preserves lower bounds that are at most 1. -/
theorem clamp01_ge (x y : ℚ) (h1 : y ≤ x) (hy1 : y ≤ 1) : y ≤ App.clamp01 x := by
  unfold App.clamp01
  split_ifs <;> linarith

/-- Helper: the per-candidate hybrid score is at least the floor whenever
the candidate has a strong keyword hit and the seed bias is
non-negative. -/
theorem scoreOfCand_ge_floor (rules : String → Option App.compiledRuleSet)
    (text : String) (baseScores : String → ℚ) (seedBias : ℚ)
    (c : App.Candidate) (hbias : 0 ≤ seedBias)
    (hstrong : 0 < (App.countRuleHits text
      ((rules c.Key).getD { strong := [], weak := [], anti := [] })).1) :
    App.floorForced ≤ App.scoreOfCand rules text baseScores seedBias c := by
  have htiny : 0 ≤ App.tinyBias c.Key := by
    unfold App.tinyBias
    positivity
  unfold App.scoreOfCand
  dsimp only
  apply clamp01_ge _ _ ?_ (by unfold App.floorForced; norm_num)
  revert hstrong
  generalize App.countRuleHits text ((rules c.Key).getD
    { strong := [], weak := [], anti := [] }) = hits
  generalize (if App.computeRuleBonus hits.1 hits.2.1 hits.2.2 > 0 then
      App.alphaWeight * baseScores c.Label +
        App.betaWeight * (App.computeRuleBonus hits.1 hits.2.1 hits.2.2 /
          App.bonusCapValue)
    else App.alphaWeight * baseScores c.Label) = final1
  intro hstrong
  split_ifs with h
  · linarith
  · push_neg at h
    have := h hstrong
    linarith

/-- C8 (amended): in `applyHybridScoring`, every candidate with at least
one strong keyword hit receives a final score of at least the configured
floor (0.60), regardless of the blended value `alpha*cosine +
beta*(bonus/bonusCap)` — provided the seed bias is non-negative (as the
sanitized configuration guarantees), the candidate labels are distinct
(as `embedLabelSet` deduplication guarantees), and the candidate does not
belong to the cross-category damping targets (`教育`, `可視化`), whose
scores the damping pass may push back below the floor when a strong
VR-category signal is present. -/
theorem c8_strong_hit_floor (rules : String → Option App.compiledRuleSet)
    (text : String) (cands : List App.Candidate) (baseScores : String → ℚ)
    (seedBias : ℚ) (c : App.Candidate) (hmem : c ∈ cands)
    (hnodup : (cands.map App.Candidate.Label).Nodup) (hbias : 0 ≤ seedBias)
    (hstrong : 0 < (App.countRuleHits text
      ((rules c.Key).getD { strong := [], weak := [], anti := [] })).1)
    (hnodamp : c.Key ∉ App.dampCategoryKeys) :
    ∃ q, (App.applyHybridScoring rules text cands baseScores
        seedBias).2.2 c.Label = some q ∧ App.floorForced ≤ q := by
  refine ⟨App.scoreOfCand rules text baseScores seedBias c, ?_,
    scoreOfCand_ge_floor rules text baseScores seedBias c hbias hstrong⟩
  unfold App.applyHybridScoring
  dsimp only
  have hlook := scorePass_lookup rules text baseScores seedBias cands
    (fun _ => none) (fun _ => none) false c hmem hnodup
  split_ifs with hv
  · rw [dampFold_other cands c.Label App.dampCategoryKeys _ ?_]
    · exact hlook
    · intro k hk c' hfind hlabel
      have hc'mem : c' ∈ cands := List.mem_of_find?_eq_some hfind
      have hc'key : c'.Key = k := by
        have := List.find?_some hfind
        exact of_decide_eq_true this
      have : c' = c :=
        List.inj_on_of_nodup_map hnodup hc'mem hmem hlabel
      subst this
      rw [hc'key] at hnodamp
      exact hnodamp hk
  · exact hlook

/-- C8 (witness): the floor theorem at a concrete input — a single seed
candidate `機械学習` whose label is a strong keyword of its own category,
with zero base score and zero seed bias. -/
theorem c8_strong_hit_floor_witness :
    ∃ q, (App.applyHybridScoring App.categoryRules "機械学習"
        [{ Label := "機械学習", Key := "機械学習", Vec := [],
           Source := "seed" }] (fun _ => 0) 0).2.2 "機械学習" = some q ∧
      App.floorForced ≤ q :=
  c8_strong_hit_floor App.categoryRules "機械学習"
    [{ Label := "機械学習", Key := "機械学習", Vec := [], Source := "seed" }]
    (fun _ => 0) 0
    { Label := "機械学習", Key := "機械学習", Vec := [], Source := "seed" }
    (by simp) (by simp) le_rfl (by with_unfolding_all decide)
    (by with_unfolding_all decide)

/-- Characterization of the goodness preorder: lower score, or equal
score with a label that is not smaller. -/
theorem goodLE_iff (a b : Cat.Hit) :
    Cat.goodLE a b ↔
      (a.Score < b.Score ∨ (a.Score = b.Score ∧ b.Label ≤ a.Label)) := by
  unfold Cat.goodLE Cat.hitBetter
  split_ifs with h
  · simp [h, not_lt, lt_irrefl]
  · simp only [decide_eq_false_iff_not, not_lt]
    constructor
    · intro hle
      exact Or.inl (lt_of_le_of_ne hle h)
    · rintro (hlt | ⟨heq, _⟩)
      · exact le_of_lt hlt
      · exact absurd heq h

/-- The goodness preorder is total. -/
theorem goodLE_total (a b : Cat.Hit) : Cat.goodLE a b ∨ Cat.goodLE b a := by
  rw [goodLE_iff, goodLE_iff]
  rcases lt_trichotomy a.Score b.Score with h | h | h
  · exact Or.inl (Or.inl h)
  · rcases le_total b.Label a.Label with hl | hl
    · exact Or.inl (Or.inr ⟨h, hl⟩)
    · exact Or.inr (Or.inr ⟨h.symm, hl⟩)
  · exact Or.inr (Or.inl h)

/-- The goodness preorder is transitive. -/
theorem goodLE_trans {a b c : Cat.Hit} (h1 : Cat.goodLE a b)
    (h2 : Cat.goodLE b c) : Cat.goodLE a c := by
  rw [goodLE_iff] at h1 h2 ⊢
  rcases h1 with h1 | ⟨h1e, h1l⟩ <;> rcases h2 with h2 | ⟨h2e, h2l⟩
  · exact Or.inl (lt_trans h1 h2)
  · exact Or.inl (h2e ▸ h1)
  · exact Or.inl (h1e ▸ h2)
  · exact Or.inr ⟨h1e.trans h2e, le_trans h2l h1l⟩

instance : IsTotal Cat.Hit Cat.goodLE := ⟨goodLE_total⟩

instance : IsTrans Cat.Hit Cat.goodLE :=
  ⟨fun _ _ _ => goodLE_trans⟩

instance : IsTotal Cat.Hit Cat.goodGE :=
  ⟨fun a b => (goodLE_total b a).imp id id⟩

instance : IsTrans Cat.Hit Cat.goodGE :=
  ⟨fun _ _ _ h1 h2 => goodLE_trans h2 h1⟩

/-- Asymmetry: a strictly better hit is never at most as good. -/
theorem hitBetter_asymm {a b : Cat.Hit} (h : Cat.hitBetter a b = true) :
    Cat.goodLE b a := by
  rw [goodLE_iff]
  unfold Cat.hitBetter at h
  split_ifs at h with he
  · exact Or.inr ⟨he.symm, le_of_lt (by simpa using h)⟩
  · exact Or.inl (by simpa using h)

/-- Non-better means at most as good. -/
theorem not_hitBetter {a b : Cat.Hit} (h : Cat.hitBetter a b = false) :
    Cat.goodLE a b := h

/-- Invariant of the bounded-heap selection loop: the heap stays sorted,
its contents are a sub-multiset of the processed items of size
`min k (processed)`, every rejected item is at most as good as every
survivor, and any bound below a full heap persists below the final
heap. -/
theorem selectLoop_spec (k : Nat) :
    ∀ (items H : List Cat.Hit), H.Sorted Cat.goodLE → H.length ≤ k →
      ∃ R : List Cat.Hit,
        (H ++ items).Perm (Cat.selectLoop k H items ++ R) ∧
        (Cat.selectLoop k H items).Sorted Cat.goodLE ∧
        (Cat.selectLoop k H items).length = min k (H.length + items.length) ∧
        (∀ x ∈ R, ∀ h ∈ Cat.selectLoop k H items, Cat.goodLE x h) ∧
        (∀ b, H.length = k → (∀ h ∈ H, Cat.goodLE b h) →
          ∀ h ∈ Cat.selectLoop k H items, Cat.goodLE b h) := by
  intro items
  induction items with
  | nil =>
    intro H hs hk
    refine ⟨[], by simp [Cat.selectLoop], ?_, ?_, by simp, ?_⟩
    · show (Cat.selectLoop k H []).Sorted Cat.goodLE
      simpa only [Cat.selectLoop] using hs
    · show (Cat.selectLoop k H []).length = _
      simp only [Cat.selectLoop, List.length_nil]
      omega
    · intro b _ hb h hh
      exact hb h (by simpa only [Cat.selectLoop] using hh)
  | cons c rest ih =>
    intro H hs hk
    by_cases hlt : H.length < k
    · have hstep : Cat.selectLoop k H (c :: rest) =
          Cat.selectLoop k (H.orderedInsert Cat.goodLE c) rest := by
        simp only [Cat.selectLoop]
        rw [if_pos hlt]
      have hs' : (H.orderedInsert Cat.goodLE c).Sorted Cat.goodLE :=
        List.Sorted.orderedInsert c H hs
      have hlen' : (H.orderedInsert Cat.goodLE c).length = H.length + 1 :=
        List.orderedInsert_length Cat.goodLE H c
      obtain ⟨R', hperm, hsort, hlen, hR, hmono⟩ :=
        ih (H.orderedInsert Cat.goodLE c) hs' (by omega)
      refine ⟨R', ?_, by rwa [hstep], ?_, ?_, ?_⟩
      · rw [hstep]
        exact List.Perm.trans List.perm_middle
          (List.Perm.trans
            ((List.perm_orderedInsert Cat.goodLE c H).symm.append_right rest)
            hperm)
      · rw [hstep, hlen, hlen', List.length_cons]
        omega
      · rw [hstep]
        exact hR
      · intro b hbfull
        exact absurd hbfull (by omega)
    · have hfull : H.length = k := by omega
      cases H with
      | nil =>
        have hk0 : k = 0 := by simpa using hfull.symm
        have hstep : Cat.selectLoop k [] (c :: rest) =
            Cat.selectLoop k [] rest := by
          simp only [Cat.selectLoop]
          rw [if_neg hlt]
        obtain ⟨R', hperm, hsort, hlen, hR, hmono⟩ :=
          ih [] (by simp) (by omega)
        have hfin : Cat.selectLoop k [] rest = [] :=
          List.length_eq_zero.mp (by rw [hlen]; omega)
        refine ⟨c :: R', ?_, ?_, ?_, ?_, ?_⟩
        · rw [hstep, hfin]
          have : rest.Perm R' := by
            have := hperm
            rw [hfin] at this
            simpa using this
          simpa using this.cons c
        · rw [hstep, hfin]
          simp
        · rw [hstep, hfin, List.length_cons]
          simp
          omega
        · intro x _ h hh
          rw [hstep, hfin] at hh
          exact absurd hh (by simp)
        · intro b _ _ h hh
          rw [hstep, hfin] at hh
          exact absurd hh (by simp)
      | cons w t =>
        have hsw : (∀ b ∈ t, Cat.goodLE w b) ∧ t.Sorted Cat.goodLE := by
          rw [List.sorted_cons] at hs
          exact hs
        by_cases hbet : Cat.hitBetter c w = true
        · have hstep : Cat.selectLoop k (w :: t) (c :: rest) =
              Cat.selectLoop k (t.orderedInsert Cat.goodLE c) rest := by
            simp only [Cat.selectLoop]
            rw [if_neg hlt, if_pos hbet]
          have hs' : (t.orderedInsert Cat.goodLE c).Sorted Cat.goodLE :=
            List.Sorted.orderedInsert c t hsw.2
          have hlen' : (t.orderedInsert Cat.goodLE c).length = k := by
            rw [List.orderedInsert_length Cat.goodLE t c]
            simp only [List.length_cons] at hfull
            omega
          obtain ⟨R', hperm, hsort, hlen, hR, hmono⟩ :=
            ih (t.orderedInsert Cat.goodLE c) hs' (by omega)
          have hwH' : ∀ h ∈ t.orderedInsert Cat.goodLE c, Cat.goodLE w h := by
            intro h hh
            rw [List.mem_orderedInsert] at hh
            rcases hh with rfl | hh
            · exact hitBetter_asymm hbet
            · exact hsw.1 h hh
          have hwfinal : ∀ h ∈ Cat.selectLoop k
              (t.orderedInsert Cat.goodLE c) rest, Cat.goodLE w h :=
            hmono w hlen' hwH'
          refine ⟨w :: R', ?_, by rwa [hstep], ?_, ?_, ?_⟩
          · rw [hstep]
            exact List.Perm.trans (List.perm_middle.cons w)
              (List.Perm.trans
                (((List.perm_orderedInsert Cat.goodLE c t).symm.append_right
                  rest).cons w)
                (List.Perm.trans (hperm.cons w) List.perm_middle.symm))
          · rw [hstep, hlen, hlen', List.length_cons]
            simp only [List.length_cons] at hfull
            omega
          · intro x hx
            rcases List.mem_cons.mp hx with rfl | hx
            · rw [hstep]
              exact hwfinal
            · rw [hstep]
              exact hR x hx
          · intro b _ hb
            rw [hstep]
            apply hmono b hlen'
            intro h hh
            rw [List.mem_orderedInsert] at hh
            rcases hh with rfl | hh
            · exact goodLE_trans (hb w (by simp)) (hitBetter_asymm hbet)
            · exact hb h (by simp [hh])
        · have hbet' : Cat.hitBetter c w = false :=
            Bool.eq_false_iff.mpr hbet
          have hstep : Cat.selectLoop k (w :: t) (c :: rest) =
              Cat.selectLoop k (w :: t) rest := by
            simp only [Cat.selectLoop]
            rw [if_neg hlt, if_neg hbet]
          obtain ⟨R', hperm, hsort, hlen, hR, hmono⟩ :=
            ih (w :: t) hs (by omega)
          have hcH : ∀ h ∈ (w :: t), Cat.goodLE c h := by
            intro h hh
            rcases List.mem_cons.mp hh with rfl | hh
            · exact not_hitBetter hbet'
            · exact goodLE_trans (not_hitBetter hbet') (hsw.1 h hh)
          refine ⟨c :: R', ?_, by rwa [hstep], ?_, ?_, ?_⟩
          · rw [hstep]
            exact List.Perm.trans List.perm_middle
              (List.Perm.trans (hperm.cons c) List.perm_middle.symm)
          · rw [hstep, hlen, List.length_cons]
            simp only [List.length_cons] at hfull
            omega
          · intro x hx
            rcases List.mem_cons.mp hx with rfl | hx
            · rw [hstep]
              exact hmono x hfull hcH
            · rw [hstep]
              exact hR x hx
          · intro b _ hb
            rw [hstep]
            exact hmono b hfull hb

/-- C1: `InMemoryIndex.Search` over a store snapshot.  For `k <= 0`, an
empty query vector or an empty store the result is empty (nil), not an
error; otherwise the result is exactly the first
`min(k, number of stored items)` elements of the candidate hits arranged
in descending score order with ties broken by ascending label (any such
arrangement — the order is unique up to hits equal in both score and
label). -/
theorem c1_search_topk (sq : ℚ → ℚ) (items : List Cat.VectorItem)
    (vec : List ℚ) (k : Int) :
    ((k ≤ 0 ∨ vec = [] ∨ items = []) → Cat.Search sq items vec k = []) ∧
    (0 < k → vec ≠ [] → items ≠ [] →
      ∃ L : List Cat.Hit,
        (items.map (Cat.toHit sq vec)).Perm L ∧
        L.Sorted Cat.goodGE ∧
        Cat.Search sq items vec k = L.take (min k.toNat items.length)) := by
  constructor
  · intro h
    unfold Cat.Search
    rw [if_pos]
    rcases h with h | h | h
    · exact Or.inr (Or.inr h)
    · exact Or.inr (Or.inl (by simp [h]))
    · exact Or.inl (by simp [h])
  · intro hk hvec hitems
    have hn : 0 < items.length := List.length_pos.mpr hitems
    have hv : 0 < vec.length := List.length_pos.mpr hvec
    have hcond : ¬(items.length = 0 ∨ vec.length = 0 ∨ k ≤ 0) := by
      push_neg
      exact ⟨by omega, by omega, hk⟩
    have hkk : (if k > (items.length : Int) then items.length else k.toNat) =
        min k.toNat items.length := by
      split_ifs with h
      · omega
      · omega
    obtain ⟨R, hperm, hsort, hlen, hR, _⟩ :=
      selectLoop_spec (min k.toNat items.length)
        (items.map (Cat.toHit sq vec)) [] (by simp) (by simp)
    have hlenS : (Cat.selectLoop (min k.toNat items.length) []
        (items.map (Cat.toHit sq vec))).length = min k.toNat items.length := by
      rw [hlen]
      simp only [List.length_nil, List.length_map]
      omega
    have hne : (Cat.selectLoop (min k.toNat items.length) []
        (items.map (Cat.toHit sq vec))).length ≠ 0 := by
      rw [hlenS]
      omega
    have hsearch : Cat.Search sq items vec k =
        (Cat.selectLoop (min k.toNat items.length) []
          (items.map (Cat.toHit sq vec))).insertionSort Cat.goodGE := by
      unfold Cat.Search
      rw [if_neg hcond]
      dsimp only
      rw [hkk, if_neg hne]
    refine ⟨(Cat.selectLoop (min k.toNat items.length) []
        (items.map (Cat.toHit sq vec))).insertionSort Cat.goodGE ++
        R.insertionSort Cat.goodGE, ?_, ?_, ?_⟩
    · have h1 : (items.map (Cat.toHit sq vec)).Perm
          (Cat.selectLoop (min k.toNat items.length) []
            (items.map (Cat.toHit sq vec)) ++ R) := by
        simpa using hperm
      exact h1.trans
        ((List.perm_insertionSort Cat.goodGE _).symm.append
          (List.perm_insertionSort Cat.goodGE _).symm)
    · rw [List.Sorted, List.pairwise_append]
      refine ⟨List.sorted_insertionSort Cat.goodGE _,
        List.sorted_insertionSort Cat.goodGE _, ?_⟩
      intro a ha b hb
      have ha' : a ∈ Cat.selectLoop (min k.toNat items.length) []
          (items.map (Cat.toHit sq vec)) :=
        (List.perm_insertionSort Cat.goodGE _).mem_iff.mp ha
      have hb' : b ∈ R :=
        (List.perm_insertionSort Cat.goodGE _).mem_iff.mp hb
      exact hR b hb' a ha'
    · rw [hsearch]
      have hlsort : ((Cat.selectLoop (min k.toNat items.length) []
          (items.map (Cat.toHit sq vec))).insertionSort
            Cat.goodGE).length = min k.toNat items.length := by
        rw [(List.perm_insertionSort Cat.goodGE _).length_eq]
        exact hlenS
      exact (List.take_left' hlsort).symm

/-- C1 (witness): the search theorem at a concrete two-item store with a
full tie on scores, `k = 1`: the result is the first element of the
tie-broken descending order. -/
theorem c1_search_topk_witness :
    ∃ L : List Cat.Hit,
      (([{ Label := "b", Source := "seed", Vector := [1] },
         { Label := "a", Source := "seed", Vector := [1] }] :
          List Cat.VectorItem).map (Cat.toHit ratSqrt [1])).Perm L ∧
      L.Sorted Cat.goodGE ∧
      Cat.Search ratSqrt
          [{ Label := "b", Source := "seed", Vector := [1] },
           { Label := "a", Source := "seed", Vector := [1] }] [1] 1 =
        L.take (min (1 : Int).toNat 2) :=
  (c1_search_topk ratSqrt
      [{ Label := "b", Source := "seed", Vector := [1] },
       { Label := "a", Source := "seed", Vector := [1] }] [1] 1).2
    (by decide) (by simp) (by simp)
